import Mathlib

/-!
Verification development for the card-game server (Switch / Crazy-Eights
variant).  The definitions below are a shallow embedding of the
authoritative game logic of `src/server.js` (the first, primary variant:
`createDeck`, `shuffle`, `draw`, `chooseSuitForBotLike`, `applyPower`,
`startNewGame`, `advanceTurn`, `applyAction`, `publicStateFor`).

Modelling conventions:
* JS arrays are Lean lists in the same order; `Array.pop` takes the LAST
  element, so the embedding pops the last list element.
* `Math.random()` is modelled by an explicit stream of natural-number
  choices threaded through the state (`rand`); a Fisher-Yates step with
  index bound `i+1` consumes one stream element `r` and uses `r % (i+1)`.
  When the stream is exhausted the choice defaults to 0 (the theorems
  quantify over all streams, and concrete runs supply enough entries).
* The `events` feed (pure UI strings pushed alongside each transition)
  carries no game data and is omitted.
* Numeric JS fields that are only ever incremented or reset
  (`pendingDraw2`, `pendingDrawJ`, `pendingSkip`) are `Nat`;
  `direction` (multiplied by -1) is `Int`.
-/

namespace CardGame

inductive Suit where
  | S | H | D | C
deriving DecidableEq, Repr, Inhabited, Fintype

inductive Rank where
  | A | r2 | r3 | r4 | r5 | r6 | r7 | r8 | r9 | r10 | J | Q | K
deriving DecidableEq, Repr, Inhabited, Fintype

structure Card where
  rank : Rank
  suit : Suit
deriving DecidableEq, Repr, Inhabited

/-- rankVal from src/server.js lines 50-56. -/
def rankVal : Rank → Nat
  | .A => 1
  | .r2 => 2
  | .r3 => 3
  | .r4 => 4
  | .r5 => 5
  | .r6 => 6
  | .r7 => 7
  | .r8 => 8
  | .r9 => 9
  | .r10 => 10
  | .J => 11
  | .Q => 12
  | .K => 13

/-- POWER_RANKS from src/server.js line 48. -/
def isPower (r : Rank) : Bool :=
  r == .A || r == .r2 || r == .r8 || r == .J || r == .Q || r == .K

/-- canStart from src/server.js lines 58-60. -/
def canStart (c top : Card) (suit : Option Suit) : Bool :=
  c.rank == .A || some c.suit == suit || c.rank == top.rank

/-- linkOk from src/server.js lines 62-64. -/
def linkOk (p n : Card) : Bool :=
  p.rank == n.rank ||
    (p.suit == n.suit && ((rankVal p.rank : Int) - rankVal n.rank).natAbs == 1)

def allSuits : List Suit := [.S, .H, .D, .C]

def allRanks : List Rank :=
  [.A, .r2, .r3, .r4, .r5, .r6, .r7, .r8, .r9, .r10, .J, .Q, .K]

/-- createDeck from src/server.js lines 66-72: 52 cards, suit-major order. -/
def createDeck : List Card :=
  (allSuits.map (fun s => allRanks.map (fun r => ⟨r, s⟩))).flatten

/-- One Fisher-Yates swap of positions i and j (both in bounds in every use). -/
def swapIdx (l : List Card) (i j : Nat) : List Card :=
  let xi := l.getD i default
  let xj := l.getD j default
  (l.set i xj).set j xi

/-- Fisher-Yates loop of src/server.js lines 74-80, iterating i from
`a.length - 1` down to 1 and consuming one random choice per step. -/
def shuffleAux : List Card → List Nat → Nat → List Card × List Nat
  | a, rand, 0 => (a, rand)
  | a, rand, i + 1 => shuffleAux (swapIdx a (i + 1) (rand.headD 0 % (i + 2))) rand.tail i

def shuffle (a : List Card) (rand : List Nat) : List Card × List Nat :=
  shuffleAux a rand (a.length - 1)

inductive Status where
  | playing | ended
deriving DecidableEq, Repr, Inhabited

structure Player where
  seat : Nat
  id : String
  name : String
  hand : List Card
  lastDeclared : Bool
deriving DecidableEq, Repr, Inhabited

structure GameState where
  status : Status
  deck : List Card
  discard : List Card
  players : List Player
  turnIndex : Nat
  direction : Int
  activeSuit : Option Suit
  pendingDraw2 : Nat
  pendingDrawJ : Nat
  pendingSkip : Nat
  extraTurn : Bool
  winnerSeat : Option Nat
  rand : List Nat
deriving DecidableEq, Repr, Inhabited

/-- topCard from src/server.js lines 82-84 (last element of the discard pile). -/
def topCard (s : GameState) : Card :=
  s.discard.getLastD default

/-- Deck replenishment inside draw, src/server.js lines 89-102: reshuffle the
discard pile minus its top card when possible, otherwise mint a completely
fresh shuffled 52-card deck. -/
def replenish (s : GameState) : GameState :=
  if s.discard.length > 1 then
    { s with deck := (shuffle s.discard.dropLast s.rand).1,
             discard := [s.discard.getLastD default],
             rand := (shuffle s.discard.dropLast s.rand).2 }
  else
    { s with deck := (shuffle createDeck s.rand).1,
             rand := (shuffle createDeck s.rand).2 }

/-- Guarded pop of the deck top: src/server.js line 104
(`if (state.deck.length > 0) out.push(state.deck.pop())`). -/
def popTop (s1 : GameState) : List Card × GameState :=
  if s1.deck.isEmpty then ([], s1)
  else ([s1.deck.getLastD default], { s1 with deck := s1.deck.dropLast })

/-- One iteration of the draw loop, src/server.js lines 88-105: replenish an
exhausted deck first, then pop the top card if one exists. -/
def drawOne (s : GameState) : List Card × GameState :=
  popTop (if s.deck.isEmpty then replenish s else s)

/-- draw from src/server.js lines 86-107 (n iterations of drawOne). -/
def drawN : GameState → Nat → List Card × GameState
  | s, 0 => ([], s)
  | s, n + 1 =>
    let c := drawOne s
    let rest := drawN c.2 n
    (c.1 ++ rest.1, rest.2)

def suitCount (hand : List Card) (su : Suit) : Nat :=
  (hand.filter (fun c => c.suit == su)).length

/-- Suit selection of chooseSuitForBotLike, src/server.js lines 109-117:
start from spades and keep the first strictly larger count in key order. -/
def bestSuitOf (hand : List Card) : Suit :=
  allSuits.foldl (fun best k => if suitCount hand k > suitCount hand best then k else best) .S

def chooseSuitForBotLike (s : GameState) (pidx : Nat) : GameState :=
  { s with activeSuit := some (bestSuitOf (s.players.getD pidx default).hand) }

/-- applyPower from src/server.js lines 119-147.  An Ace only picks a suit
when it is the last card played; a non-terminal Ace falls through every
branch and does nothing. -/
def applyPower (s : GameState) (card : Card) (pidx : Nat) (isLast : Bool) : GameState :=
  if card.rank == .A && isLast then chooseSuitForBotLike s pidx
  else if card.rank == .r2 then { s with pendingDraw2 := s.pendingDraw2 + 2 }
  else if card.rank == .r8 then { s with pendingSkip := s.pendingSkip + 1 }
  else if card.rank == .Q then { s with direction := s.direction * (-1) }
  else if card.rank == .K then { s with extraTurn := true }
  else if card.rank == .J then
    if card.suit == .H || card.suit == .D then { s with pendingDrawJ := 0 }
    else { s with pendingDrawJ := s.pendingDrawJ + 5 }
  else s

/-- advanceTurn from src/server.js lines 199-202. -/
def advanceTurn (s : GameState) : GameState :=
  let n : Int := s.players.length
  { s with turnIndex := (((s.turnIndex : Int) + s.direction + n) % n).toNat }

/-- One dealing step of startNewGame: player i receives draw(state, 1). -/
def dealOne (s : GameState) (i : Nat) : GameState :=
  let d := drawN s 1
  let p := d.2.players.getD i default
  { d.2 with players := d.2.players.set i { p with hand := p.hand ++ d.1 } }

/-- One round of the deal loop (each seated player draws one card). -/
def dealRound (s : GameState) : GameState :=
  (List.range s.players.length).foldl dealOne s

/-- The freshly initialised state of startNewGame (src/server.js
lines 150-175) before any card is dealt. -/
def initialState (playerIdsBySeat namesBySeat : List String) (rand : List Nat) : GameState :=
  { status := .playing, deck := (shuffle createDeck rand).1, discard := [],
    players := (List.range playerIdsBySeat.length).map (fun i =>
      { seat := i, id := playerIdsBySeat.getD i "", name := namesBySeat.getD i "Player",
        hand := [], lastDeclared := false : Player }),
    turnIndex := 0, direction := 1, activeSuit := none,
    pendingDraw2 := 0, pendingDrawJ := 0, pendingSkip := 0,
    extraTurn := false, winnerSeat := none, rand := (shuffle createDeck rand).2 }

/-- The 7-round deal loop of src/server.js lines 179-183. -/
def dealAll (s : GameState) : GameState :=
  (List.range 7).foldl (fun acc _ => dealRound acc) s

/-- startNewGame from src/server.js lines 149-193: shuffled deck, 7 cards to
each player dealt one at a time round-robin, then the next card is flipped
as the starting discard pile and fixes the active suit.  There is no retry
when the flipped card is a power card. -/
def startNewGame (playerIdsBySeat namesBySeat : List String) (rand : List Nat) : GameState :=
  let s2 := dealAll (initialState playerIdsBySeat namesBySeat rand)
  let flip := drawN s2 1
  { flip.2 with
      discard := flip.2.discard ++ flip.1,
      activeSuit := some (flip.1.headD default).suit }

inductive Action where
  | declareLast
  | draw
  | play (indices : List Nat)
  | other
deriving DecidableEq, Repr

inductive Res where
  | ok
  | err (msg : String)
deriving DecidableEq, Repr

/-- Insertion into a descending-sorted list. -/
def insertDesc (x : Nat) : List Nat → List Nat
  | [] => [x]
  | y :: ys => if x ≥ y then x :: y :: ys else y :: insertDesc x ys

/-- Descending insertion sort (the embeddings only need the sorted result;
src/server.js sorts the index array with a descending comparator). -/
def sortDesc : List Nat → List Nat
  | [] => []
  | x :: xs => insertDesc x (sortDesc xs)

/-- The uniq computation of the PLAY branch, src/server.js lines 253-254:
deduplicate the requested indices and sort them descending.  (JS keeps the
first occurrence and Lean dedup keeps the last; after sorting the results
coincide since duplicates are equal values.) -/
def uniqIndices (indices : List Nat) : List Nat :=
  sortDesc indices.dedup

/-- Successive splice(i, 1) removals at descending indices,
src/server.js line 277. -/
def removeIdxs (hand : List Card) (idxs : List Nat) : List Card :=
  idxs.foldl (fun h i => h.eraseIdx i) hand

/-- The combo-link validation loop, src/server.js lines 272-274. -/
def comboOk : List Card → Bool
  | [] => true
  | [_] => true
  | a :: b :: rest => linkOk a b && comboOk (b :: rest)

/-- The discard/power loop of the PLAY branch, src/server.js lines 285-293:
push each card on the discard pile and apply its power when it is part of
an all-same-rank set or is the terminal card. -/
def playLoop : GameState → List Card → Nat → Bool → GameState
  | s, [], _, _ => s
  | s, c :: rest, seat, isSet =>
    let isLast := rest.isEmpty
    let s1 := { s with discard := s.discard ++ [c] }
    let s2 := if isPower c.rank && (isSet || isLast) then applyPower s1 c seat isLast else s1
    playLoop s2 rest seat isSet

/-- The forgot-LAST / power-finish penalty of src/server.js lines 302-317:
the finishing player force-draws n cards and lastDeclared is cleared. -/
def penaltyDraw (s : GameState) (seat : Nat) (n : Nat) : GameState :=
  let d := drawN s n
  let p4 := d.2.players.getD seat default
  { d.2 with
    players := d.2.players.set seat { p4 with hand := p4.hand ++ d.1, lastDeclared := false } }

/-- The cards selected by a PLAY request, in the order the server plays them
(descending hand index), src/server.js line 260. -/
def playedCards (s : GameState) (seat : Nat) (indices : List Nat) : List Card :=
  (uniqIndices indices).map (fun i => (s.players.getD seat default).hand.getD i default)

/-- The all-same-rank test of src/server.js line 282. -/
def isSetPlay (cards : List Card) : Bool :=
  decide (cards.length > 1) && cards.all (fun c => c.rank == (cards.headD default).rank)

/-- State after removing the played cards from the hand, running the
discard/power loop and updating the active suit (src/server.js
lines 277-297), before the finish alternatives are examined. -/
def afterPlayCards (s : GameState) (seat : Nat) (indices : List Nat) : GameState :=
  let p := s.players.getD seat default
  let cards := playedCards s seat indices
  let s1 := { s with
    players := s.players.set seat { p with hand := removeIdxs p.hand (uniqIndices indices) } }
  let s2 := playLoop s1 cards seat (isSetPlay cards)
  if !((cards.getLastD default).rank == .A) then
    { s2 with activeSuit := some (cards.getLastD default).suit }
  else s2

/-- The accepted part of the PLAY branch, src/server.js lines 276-336
(everything after the validation gates have passed): remove the selected
cards, run the discard/power loop, update the active suit, then resolve
the finish / extra-turn / advance alternatives in source order. -/
def playAccept (s : GameState) (seat : Nat) (indices : List Nat) : GameState :=
  let finishedNow :=
    (removeIdxs (s.players.getD seat default).hand (uniqIndices indices)).isEmpty
  let lastCard := (playedCards s seat indices).getLastD default
  let s3 := afterPlayCards s seat indices
  if finishedNow && !(s.players.getD seat default).lastDeclared then
    advanceTurn (penaltyDraw s3 seat 2)
  else if finishedNow && isPower lastCard.rank then
    advanceTurn (penaltyDraw s3 seat 1)
  else if finishedNow then
    { s3 with status := .ended, winnerSeat := some seat }
  else if s3.extraTurn then
    { s3 with extraTurn := false }
  else
    advanceTurn s3

/-- The PLAY branch of applyAction, src/server.js lines 248-337. -/
def applyPlay (s : GameState) (seat : Nat) (indices : List Nat) : Res × GameState :=
  if indices.length = 0 then (.err "No cards selected", s)
  else
    let p := s.players.getD seat default
    let uniq := uniqIndices indices
    if uniq.headD 0 ≥ p.hand.length then (.err "Invalid selection", s)
    else
      let cards := uniq.map (fun i => p.hand.getD i default)
      if s.pendingDraw2 > 0 && !((cards.headD default).rank == .r2) then
        (.err "Must play a 2!", s)
      else if s.pendingDrawJ > 0 && !((cards.headD default).rank == .J) then
        (.err "Must play a Jack (or DRAW)!", s)
      else if s.pendingSkip > 0 && !((cards.headD default).rank == .r8) then
        (.err "Can only stack an 8!", s)
      else if !canStart (cards.headD default) (topCard s) s.activeSuit then
        (.err "Invalid Card", s)
      else if !comboOk cards then
        (.err "Invalid Combo", s)
      else
        (.ok, playAccept s seat indices)

/-- The DRAW branch of applyAction, src/server.js lines 220-245. -/
def applyDraw (s : GameState) (seat : Nat) : Res × GameState :=
  let p := s.players.getD seat default
  if s.pendingDraw2 > 0 then
    let s0 := { s with pendingDraw2 := 0 }
    let d := drawN s0 s.pendingDraw2
    (.ok, advanceTurn { d.2 with
      players := d.2.players.set seat { p with hand := p.hand ++ d.1 } })
  else if s.pendingDrawJ > 0 then
    let s0 := { s with pendingDrawJ := 0 }
    let d := drawN s0 s.pendingDrawJ
    (.ok, advanceTurn { d.2 with
      players := d.2.players.set seat { p with hand := p.hand ++ d.1 } })
  else if s.pendingSkip > 0 then
    (.ok, advanceTurn { s with pendingSkip := 0 })
  else
    let d := drawN s 1
    (.ok, advanceTurn { d.2 with
      players := d.2.players.set seat { p with hand := p.hand ++ d.1 } })

/-- applyAction from src/server.js lines 204-340. -/
def applyAction (s : GameState) (seat : Nat) (a : Action) : Res × GameState :=
  if s.status ≠ .playing then (.err "Game not active", s)
  else if s.turnIndex ≠ seat then (.err "Not your turn", s)
  else
    match a with
    | .declareLast =>
      let p := s.players.getD seat default
      (.ok, { s with players := s.players.set seat { p with lastDeclared := true } })
    | .draw => applyDraw s seat
    | .play indices => applyPlay s seat indices
    | .other => (.err "Unknown action", s)

/-- Per-recipient view of a player, publicStateFor src/server.js lines 374-388:
opponents keep every public field but their hand array is emptied and a
handCount field is added; the viewer keeps the full hand. -/
structure ViewPlayer where
  seat : Nat
  id : String
  name : String
  hand : List Card
  lastDeclared : Bool
  handCount : Option Nat
deriving DecidableEq, Repr, Inhabited

structure PublicView where
  status : Status
  deck : List Card
  discard : List Card
  players : List ViewPlayer
  turnIndex : Nat
  direction : Int
  activeSuit : Option Suit
  pendingDraw2 : Nat
  pendingDrawJ : Nat
  pendingSkip : Nat
  extraTurn : Bool
  winnerSeat : Option Nat
  deckCount : Nat
deriving DecidableEq, Repr

def maskPlayer (viewerId : String) (p : Player) : ViewPlayer :=
  if p.id ≠ viewerId then
    { seat := p.seat, id := p.id, name := p.name, hand := [],
      lastDeclared := p.lastDeclared, handCount := some p.hand.length }
  else
    { seat := p.seat, id := p.id, name := p.name, hand := p.hand,
      lastDeclared := p.lastDeclared, handCount := none }

/-- publicStateFor from src/server.js lines 374-388: a deep copy of the whole
state in which only the other players hand arrays are emptied; the deck
itself stays in the payload next to the added deckCount. -/
def publicStateFor (s : GameState) (viewerId : String) : PublicView :=
  { status := s.status, deck := s.deck, discard := s.discard,
    players := s.players.map (maskPlayer viewerId),
    turnIndex := s.turnIndex, direction := s.direction, activeSuit := s.activeSuit,
    pendingDraw2 := s.pendingDraw2, pendingDrawJ := s.pendingDrawJ,
    pendingSkip := s.pendingSkip, extraTurn := s.extraTurn,
    winnerSeat := s.winnerSeat, deckCount := s.deck.length }

/-- Total number of physical cards on the table. -/
def totalCards (s : GameState) : Nat :=
  (s.players.map (fun p => p.hand.length)).sum + s.deck.length + s.discard.length

/-- Number of copies of one card value across every zone. -/
def countCard (s : GameState) (c : Card) : Nat :=
  (s.players.map (fun p => p.hand.count c)).sum + s.deck.count c + s.discard.count c

/-- Run a list of (seat, action) intents, keeping each resulting state. -/
def runActions : GameState → List (Nat × Action) → GameState
  | s, [] => s
  | s, (seat, a) :: rest => runActions (applyAction s seat a).2 rest

/-- Check that every intent in the list is accepted in sequence. -/
def allAccepted : GameState → List (Nat × Action) → Bool
  | _, [] => true
  | s, (seat, a) :: rest =>
    match applyAction s seat a with
    | (.ok, s1) => allAccepted s1 rest
    | (.err _, _) => false

/-! ### Basic facts about the deck and the shuffle -/

theorem createDeck_length : createDeck.length = 52 := by decide

theorem swapIdx_length (l : List Card) (i j : Nat) : (swapIdx l i j).length = l.length := by
  simp [swapIdx]

theorem shuffleAux_length (fuel : Nat) :
    ∀ (a : List Card) (rand : List Nat), ((shuffleAux a rand fuel).1).length = a.length := by
  induction fuel with
  | zero => intro a rand; rfl
  | succ i ih => intro a rand; rw [shuffleAux, ih, swapIdx_length]

theorem shuffle_length (a : List Card) (rand : List Nat) :
    ((shuffle a rand).1).length = a.length :=
  shuffleAux_length _ a rand

theorem getD_cons_set_perm (u : List Card) :
    ∀ (m : Nat) (a : Card), m < u.length →
      List.Perm (u.getD m default :: u.set m a) (a :: u) := by
  induction u with
  | nil => intro m a h; simp at h
  | cons b t ih =>
    intro m a h
    cases m with
    | zero => simpa using List.Perm.swap a b t
    | succ n =>
      have hn : n < t.length := by simpa using h
      have h1 : List.Perm (t.getD n default :: b :: t.set n a) (b :: t.getD n default :: t.set n a) :=
        List.Perm.swap b (t.getD n default) (t.set n a)
      have h2 : List.Perm (b :: t.getD n default :: t.set n a) (b :: a :: t) :=
        List.Perm.cons b (ih n a hn)
      have h3 : List.Perm (b :: a :: t) (a :: b :: t) := List.Perm.swap a b t
      simpa using (h1.trans h2).trans h3

theorem swapIdx_perm (l : List Card) :
    ∀ (i j : Nat), i < l.length → j < l.length → List.Perm (swapIdx l i j) l := by
  induction l with
  | nil => intro i j hi _; simp at hi
  | cons a t ih =>
    intro i j hi hj
    cases i with
    | zero =>
      cases j with
      | zero => simp [swapIdx]
      | succ m =>
        have hm : m < t.length := by simpa using hj
        simpa [swapIdx] using getD_cons_set_perm t m a hm
    | succ n =>
      cases j with
      | zero =>
        have hn : n < t.length := by simpa using hi
        simpa [swapIdx] using getD_cons_set_perm t n a hn
      | succ m =>
        have hn : n < t.length := by simpa using hi
        have hm : m < t.length := by simpa using hj
        simpa [swapIdx] using List.Perm.cons a (ih n m hn hm)

theorem shuffleAux_perm (fuel : Nat) :
    ∀ (a : List Card) (rand : List Nat), fuel < a.length →
      List.Perm (shuffleAux a rand fuel).1 a := by
  induction fuel with
  | zero => intro a rand _; exact List.Perm.refl a
  | succ i ih =>
    intro a rand hlt
    rw [shuffleAux]
    have hj : rand.headD 0 % (i + 2) < a.length :=
      lt_of_lt_of_le (Nat.mod_lt _ (by omega)) (by omega)
    have hswap : List.Perm (swapIdx a (i + 1) (rand.headD 0 % (i + 2))) a :=
      swapIdx_perm a (i + 1) _ hlt hj
    have hlen : (swapIdx a (i + 1) (rand.headD 0 % (i + 2))).length = a.length :=
      swapIdx_length a _ _
    exact (ih _ rand.tail (by rw [hlen]; omega)).trans hswap

theorem shuffle_perm (a : List Card) (rand : List Nat) :
    List.Perm (shuffle a rand).1 a := by
  cases a with
  | nil => exact List.Perm.refl _
  | cons x t =>
    exact shuffleAux_perm _ _ _ (by simp)

/-! ### Stability and conservation of the draw pipeline -/

/-- Fields of the state that the draw pipeline never touches (it only moves
cards between deck and discard and consumes entropy). -/
def EqOutsideDraw (s t : GameState) : Prop :=
  t.players = s.players ∧ t.status = s.status ∧ t.turnIndex = s.turnIndex ∧
  t.direction = s.direction ∧ t.activeSuit = s.activeSuit ∧
  t.pendingDraw2 = s.pendingDraw2 ∧ t.pendingDrawJ = s.pendingDrawJ ∧
  t.pendingSkip = s.pendingSkip ∧ t.extraTurn = s.extraTurn ∧ t.winnerSeat = s.winnerSeat

theorem eqOutsideDraw_refl (s : GameState) : EqOutsideDraw s s :=
  ⟨rfl, rfl, rfl, rfl, rfl, rfl, rfl, rfl, rfl, rfl⟩

theorem eqOutsideDraw_trans {s t u : GameState}
    (h1 : EqOutsideDraw s t) (h2 : EqOutsideDraw t u) : EqOutsideDraw s u := by
  obtain ⟨a1, a2, a3, a4, a5, a6, a7, a8, a9, a10⟩ := h1
  obtain ⟨b1, b2, b3, b4, b5, b6, b7, b8, b9, b10⟩ := h2
  exact ⟨b1.trans a1, b2.trans a2, b3.trans a3, b4.trans a4, b5.trans a5,
    b6.trans a6, b7.trans a7, b8.trans a8, b9.trans a9, b10.trans a10⟩

theorem replenish_stable (s : GameState) : EqOutsideDraw s (replenish s) := by
  unfold replenish
  split <;> exact ⟨rfl, rfl, rfl, rfl, rfl, rfl, rfl, rfl, rfl, rfl⟩

theorem replenish_deck_ne (s : GameState) : (replenish s).deck ≠ [] := by
  unfold replenish
  split
  next h =>
    intro hnil
    dsimp only at hnil
    have h2 := shuffle_length s.discard.dropLast s.rand
    rw [hnil] at h2
    simp only [List.length_nil, List.length_dropLast] at h2
    omega
  next h =>
    intro hnil
    dsimp only at hnil
    have h2 := shuffle_length createDeck s.rand
    rw [hnil, createDeck_length] at h2
    simp at h2

theorem replenish_conserve (s : GameState) (hd : s.deck = []) :
    (replenish s).deck.length + (replenish s).discard.length = s.deck.length + s.discard.length ∨
      (replenish s).deck.length + (replenish s).discard.length =
        s.deck.length + s.discard.length + 52 := by
  unfold replenish
  split
  next h =>
    left
    dsimp only
    rw [shuffle_length, hd]
    simp only [List.length_dropLast, List.length_nil, List.length_cons]
    omega
  next h =>
    right
    dsimp only
    rw [shuffle_length, createDeck_length, hd]
    simp only [List.length_nil]
    omega

theorem replenish_deck_only (s : GameState) :
    s.deck = [] → (replenish s).deck.length + (replenish s).discard.length ≥ 1 := by
  intro _
  have h := replenish_deck_ne s
  have := List.length_pos.mpr h
  omega

theorem popTop_stable (s1 : GameState) : EqOutsideDraw s1 (popTop s1).2 := by
  unfold popTop
  split
  · exact eqOutsideDraw_refl s1
  · exact ⟨rfl, rfl, rfl, rfl, rfl, rfl, rfl, rfl, rfl, rfl⟩

theorem popTop_length (s1 : GameState) (h : s1.deck ≠ []) : (popTop s1).1.length = 1 := by
  unfold popTop
  rw [if_neg (by simpa [List.isEmpty_iff] using h)]
  rfl

theorem popTop_conserve (s1 : GameState) :
    (popTop s1).2.deck.length + (popTop s1).2.discard.length + (popTop s1).1.length =
      s1.deck.length + s1.discard.length := by
  unfold popTop
  split
  next h =>
    simp
  next h =>
    have hne : s1.deck ≠ [] := by simpa [List.isEmpty_iff] using h
    have hpos := List.length_pos.mpr hne
    simp only [List.length_dropLast, List.length_cons, List.length_nil]
    omega

theorem drawOne_stable (s : GameState) : EqOutsideDraw s (drawOne s).2 := by
  unfold drawOne
  by_cases hd : s.deck.isEmpty
  · rw [if_pos hd]
    exact eqOutsideDraw_trans (replenish_stable s) (popTop_stable (replenish s))
  · rw [if_neg hd]
    exact popTop_stable s

theorem drawOne_length (s : GameState) : (drawOne s).1.length = 1 := by
  unfold drawOne
  by_cases hd : s.deck.isEmpty
  · rw [if_pos hd]
    exact popTop_length _ (replenish_deck_ne s)
  · rw [if_neg hd]
    exact popTop_length _ (by simpa [List.isEmpty_iff] using hd)

theorem drawOne_conserve (s : GameState) :
    ((drawOne s).2.deck.length + (drawOne s).2.discard.length + (drawOne s).1.length) % 52 =
      (s.deck.length + s.discard.length) % 52 := by
  unfold drawOne
  by_cases hd : s.deck.isEmpty
  · rw [if_pos hd]
    have h1 := popTop_conserve (replenish s)
    have h2 := replenish_conserve s (by simpa [List.isEmpty_iff] using hd)
    omega
  · rw [if_neg hd]
    have h1 := popTop_conserve s
    omega

theorem drawN_stable (n : Nat) : ∀ s : GameState, EqOutsideDraw s (drawN s n).2 := by
  induction n with
  | zero => intro s; exact eqOutsideDraw_refl s
  | succ m ih =>
    intro s
    rw [drawN]
    exact eqOutsideDraw_trans (drawOne_stable s) (ih (drawOne s).2)

theorem drawN_length (n : Nat) : ∀ s : GameState, (drawN s n).1.length = n := by
  induction n with
  | zero => intro s; rfl
  | succ m ih =>
    intro s
    rw [drawN]
    simp only [List.length_append, drawOne_length, ih]
    omega

theorem drawN_conserve (n : Nat) :
    ∀ s : GameState,
      ((drawN s n).2.deck.length + (drawN s n).2.discard.length + n) % 52 =
        (s.deck.length + s.discard.length) % 52 := by
  induction n with
  | zero => intro s; rfl
  | succ m ih =>
    intro s
    rw [drawN]
    have h1 := drawOne_conserve s
    have h2 := ih (drawOne s).2
    have h3 := drawOne_length s
    simp only []
    omega

/-! ### Stability of power application and the discard/power loop -/

theorem applyPower_stable (s : GameState) (c : Card) (pidx : Nat) (il : Bool) :
    (applyPower s c pidx il).players = s.players ∧
    (applyPower s c pidx il).status = s.status ∧
    (applyPower s c pidx il).turnIndex = s.turnIndex ∧
    (applyPower s c pidx il).winnerSeat = s.winnerSeat ∧
    (applyPower s c pidx il).deck = s.deck ∧
    (applyPower s c pidx il).discard = s.discard ∧
    (applyPower s c pidx il).rand = s.rand := by
  cases c with
  | mk r su => cases r <;> cases il <;> cases su <;>
      simp [applyPower, chooseSuitForBotLike]

theorem applyPower_draw2 (s : GameState) (c : Card) (pidx : Nat) (il : Bool)
    (h : c.rank ≠ .r2) : (applyPower s c pidx il).pendingDraw2 = s.pendingDraw2 := by
  cases c with
  | mk r su => cases r <;> cases il <;> cases su <;>
      simp_all [applyPower, chooseSuitForBotLike]

theorem applyPower_drawJ (s : GameState) (c : Card) (pidx : Nat) (il : Bool)
    (h : c.rank ≠ .J) : (applyPower s c pidx il).pendingDrawJ = s.pendingDrawJ := by
  cases c with
  | mk r su => cases r <;> cases il <;> cases su <;>
      simp_all [applyPower, chooseSuitForBotLike]

theorem applyPower_extraTurn (s : GameState) (c : Card) (pidx : Nat) (il : Bool)
    (h : c.rank ≠ .K) : (applyPower s c pidx il).extraTurn = s.extraTurn := by
  cases c with
  | mk r su => cases r <;> cases il <;> cases su <;>
      simp_all [applyPower, chooseSuitForBotLike]

theorem applyPower_direction (s : GameState) (c : Card) (pidx : Nat) (il : Bool)
    (h : c.rank ≠ .Q) : (applyPower s c pidx il).direction = s.direction := by
  cases c with
  | mk r su => cases r <;> cases il <;> cases su <;>
      simp_all [applyPower, chooseSuitForBotLike]

theorem applyPower_A_last (s : GameState) (c : Card) (pidx : Nat)
    (h : c.rank = .A) : applyPower s c pidx true = chooseSuitForBotLike s pidx := by
  cases c with
  | mk r su => cases r <;> simp_all [applyPower]

theorem applyPower_A_notLast (s : GameState) (c : Card) (pidx : Nat)
    (h : c.rank = .A) : applyPower s c pidx false = s := by
  cases c with
  | mk r su => cases r <;> simp_all [applyPower]

theorem playLoop_stable (cards : List Card) :
    ∀ (s : GameState) (seat : Nat) (b : Bool),
      (playLoop s cards seat b).players = s.players ∧
      (playLoop s cards seat b).status = s.status ∧
      (playLoop s cards seat b).turnIndex = s.turnIndex ∧
      (playLoop s cards seat b).winnerSeat = s.winnerSeat ∧
      (playLoop s cards seat b).deck = s.deck ∧
      (playLoop s cards seat b).rand = s.rand ∧
      (playLoop s cards seat b).discard = s.discard ++ cards := by
  induction cards with
  | nil => intro s seat b; simp [playLoop]
  | cons c rest ih =>
    intro s seat b
    simp only [playLoop]
    split
    next hcond =>
      obtain ⟨i1, i2, i3, i4, i5, i6, i7⟩ :=
        ih (applyPower { s with discard := s.discard ++ [c] } c seat rest.isEmpty) seat b
      obtain ⟨a1, a2, a3, a4, a5, a6, a7⟩ :=
        applyPower_stable { s with discard := s.discard ++ [c] } c seat rest.isEmpty
      refine ⟨?_, ?_, ?_, ?_, ?_, ?_, ?_⟩ <;> simp_all
    next hcond =>
      obtain ⟨i1, i2, i3, i4, i5, i6, i7⟩ :=
        ih { s with discard := s.discard ++ [c] } seat b
      refine ⟨?_, ?_, ?_, ?_, ?_, ?_, ?_⟩ <;> simp_all

theorem playLoop_draw2_of_no2 (cards : List Card) :
    ∀ (s : GameState) (seat : Nat) (b : Bool), (∀ c ∈ cards, c.rank ≠ .r2) →
      (playLoop s cards seat b).pendingDraw2 = s.pendingDraw2 := by
  induction cards with
  | nil => intro s seat b _; rfl
  | cons c rest ih =>
    intro s seat b hall
    simp only [playLoop]
    split
    next hcond =>
      rw [ih _ seat b (fun x hx => hall x (List.mem_cons_of_mem c hx))]
      exact applyPower_draw2 _ c seat rest.isEmpty (hall c (List.mem_cons_self c rest))
    next hcond =>
      exact ih _ seat b (fun x hx => hall x (List.mem_cons_of_mem c hx))

theorem playLoop_drawJ_of_noJ (cards : List Card) :
    ∀ (s : GameState) (seat : Nat) (b : Bool), (∀ c ∈ cards, c.rank ≠ .J) →
      (playLoop s cards seat b).pendingDrawJ = s.pendingDrawJ := by
  induction cards with
  | nil => intro s seat b _; rfl
  | cons c rest ih =>
    intro s seat b hall
    simp only [playLoop]
    split
    next hcond =>
      rw [ih _ seat b (fun x hx => hall x (List.mem_cons_of_mem c hx))]
      exact applyPower_drawJ _ c seat rest.isEmpty (hall c (List.mem_cons_self c rest))
    next hcond =>
      exact ih _ seat b (fun x hx => hall x (List.mem_cons_of_mem c hx))

/-- getLastD of a nonempty list does not depend on the default. -/
theorem getLastD_irrel (l : List Card) (d e : Card) (h : l ≠ []) :
    l.getLastD d = l.getLastD e := by
  cases l with
  | nil => exact absurd rfl h
  | cons x t =>
    rw [List.getLastD_eq_getLast?, List.getLastD_eq_getLast?]
    rw [List.getLast?_eq_getLast (x :: t) (by simp)]
    rfl

theorem playLoop_nonset_draw2 (cards : List Card) :
    ∀ (s : GameState) (seat : Nat), cards ≠ [] →
      (cards.getLastD default).rank ≠ .r2 →
      (playLoop s cards seat false).pendingDraw2 = s.pendingDraw2 := by
  induction cards with
  | nil => intro s seat h _; exact absurd rfl h
  | cons c rest ih =>
    intro s seat _ hlast
    simp only [playLoop]
    by_cases hrest : rest = []
    · subst hrest
      simp only [List.isEmpty_nil, Bool.or_true, Bool.and_true]
      have hc : (c :: []).getLastD default = c := rfl
      rw [hc] at hlast
      split
      next hcond =>
        show (applyPower _ c seat true).pendingDraw2 = _
        exact applyPower_draw2 _ c seat true hlast
      next hcond => rfl
    · have hne : rest.isEmpty = false := by simpa [List.isEmpty_iff] using hrest
      rw [hne]
      simp only [Bool.or_false, Bool.and_false, if_neg (by simp : ¬(false = true))]
      have hlast2 : (rest.getLastD default).rank ≠ .r2 := by
        have : (c :: rest).getLastD default = rest.getLastD c := by
          cases rest with
          | nil => exact absurd rfl hrest
          | cons y t => rfl
        rw [this, getLastD_irrel rest c default hrest] at hlast
        exact hlast
      exact ih _ seat hrest hlast2

theorem playLoop_nonset_drawJ (cards : List Card) :
    ∀ (s : GameState) (seat : Nat), cards ≠ [] →
      (cards.getLastD default).rank ≠ .J →
      (playLoop s cards seat false).pendingDrawJ = s.pendingDrawJ := by
  induction cards with
  | nil => intro s seat h _; exact absurd rfl h
  | cons c rest ih =>
    intro s seat _ hlast
    simp only [playLoop]
    by_cases hrest : rest = []
    · subst hrest
      simp only [List.isEmpty_nil, Bool.or_true, Bool.and_true]
      have hc : (c :: []).getLastD default = c := rfl
      rw [hc] at hlast
      split
      next hcond =>
        show (applyPower _ c seat true).pendingDrawJ = _
        exact applyPower_drawJ _ c seat true hlast
      next hcond => rfl
    · have hne : rest.isEmpty = false := by simpa [List.isEmpty_iff] using hrest
      rw [hne]
      simp only [Bool.or_false, Bool.and_false, if_neg (by simp : ¬(false = true))]
      have hlast2 : (rest.getLastD default).rank ≠ .J := by
        have : (c :: rest).getLastD default = rest.getLastD c := by
          cases rest with
          | nil => exact absurd rfl hrest
          | cons y t => rfl
        rw [this, getLastD_irrel rest c default hrest] at hlast
        exact hlast
      exact ih _ seat hrest hlast2

/-- Behaviour of the discard/power loop when the terminal card is an Ace and
either no set is in force or every card is an Ace: only the terminal Ace has
an effect, namely the bot-like suit choice over the remaining hand. -/
theorem playLoop_A_terminal (cards : List Card) :
    ∀ (s : GameState) (seat : Nat) (b : Bool),
      cards ≠ [] → (cards.getLastD default).rank = .A →
      (b = false ∨ ∀ c ∈ cards, c.rank = .A) →
      (playLoop s cards seat b).activeSuit =
        some (bestSuitOf ((s.players.getD seat default).hand)) ∧
      (playLoop s cards seat b).extraTurn = s.extraTurn ∧
      (playLoop s cards seat b).direction = s.direction := by
  induction cards with
  | nil => intro s seat b h _ _; exact absurd rfl h
  | cons c rest ih =>
    intro s seat b _ hlast hor
    simp only [playLoop]
    by_cases hrest : rest = []
    · subst hrest
      have hc : (c :: []).getLastD default = c := rfl
      rw [hc] at hlast
      simp only [List.isEmpty_nil, Bool.or_true, Bool.and_true]
      rw [if_pos (by rw [hlast]; rfl)]
      rw [applyPower_A_last _ c seat hlast]
      simp [playLoop, chooseSuitForBotLike]
    · have hne : rest.isEmpty = false := by simpa [List.isEmpty_iff] using hrest
      rw [hne]
      have hlast2 : (rest.getLastD default).rank = .A := by
        have heq : (c :: rest).getLastD default = rest.getLastD c := by
          cases rest with
          | nil => exact absurd rfl hrest
          | cons y t => rfl
        rw [heq, getLastD_irrel rest c default hrest] at hlast
        exact hlast
      have hor2 : b = false ∨ ∀ x ∈ rest, x.rank = .A := by
        rcases hor with h | h
        · exact Or.inl h
        · exact Or.inr (fun x hx => h x (List.mem_cons_of_mem c hx))
      rcases hor with hb | hall
      · subst hb
        simp only [Bool.or_false, Bool.and_false]
        rw [if_neg (by simp)]
        exact ih _ seat false hrest hlast2 hor2
      · have hcA : c.rank = .A := hall c (List.mem_cons_self c rest)
        by_cases hbv : b
        · subst hbv
          simp only [Bool.or_false, Bool.and_true]
          rw [if_pos (by rw [hcA]; rfl)]
          rw [applyPower_A_notLast _ c seat hcA]
          exact ih _ seat true hrest hlast2 hor2
        · have : b = false := by simpa using hbv
          subst this
          simp only [Bool.or_false, Bool.and_false]
          rw [if_neg (by simp)]
          exact ih _ seat false hrest hlast2 hor2

/-! ### Sorting, deduplication and index removal -/

theorem insertDesc_perm (x : Nat) (l : List Nat) : List.Perm (insertDesc x l) (x :: l) := by
  induction l with
  | nil => exact List.Perm.refl _
  | cons y ys ih =>
    rw [insertDesc]
    split
    · exact List.Perm.refl _
    · exact (List.Perm.cons y ih).trans (List.Perm.swap x y ys)

theorem sortDesc_perm (l : List Nat) : List.Perm (sortDesc l) l := by
  induction l with
  | nil => exact List.Perm.refl _
  | cons x xs ih =>
    exact (insertDesc_perm x (sortDesc xs)).trans (List.Perm.cons x ih)

theorem insertDesc_sorted (x : Nat) (l : List Nat) (h : l.Sorted (· ≥ ·)) :
    (insertDesc x l).Sorted (· ≥ ·) := by
  induction l with
  | nil => simp [insertDesc]
  | cons y ys ih =>
    rw [List.sorted_cons] at h
    obtain ⟨hy, hys⟩ := h
    rw [insertDesc]
    split
    next hxy =>
      rw [List.sorted_cons]
      refine ⟨?_, ?_⟩
      · intro b hb
        rcases List.mem_cons.mp hb with hb | hb
        · omega
        · have := hy b hb; omega
      · rw [List.sorted_cons]; exact ⟨hy, hys⟩
    next hxy =>
      rw [List.sorted_cons]
      refine ⟨?_, ih hys⟩
      intro b hb
      have hmem := (insertDesc_perm x ys).mem_iff.mp hb
      rcases List.mem_cons.mp hmem with hb2 | hb2
      · subst hb2; omega
      · exact hy b hb2

theorem sortDesc_sorted (l : List Nat) : (sortDesc l).Sorted (· ≥ ·) := by
  induction l with
  | nil => simp [sortDesc]
  | cons x xs ih => exact insertDesc_sorted x (sortDesc xs) ih

theorem uniqIndices_perm_dedup (l : List Nat) :
    List.Perm (uniqIndices l) l.dedup :=
  sortDesc_perm _

theorem uniqIndices_nodup (l : List Nat) : (uniqIndices l).Nodup :=
  ((sortDesc_perm l.dedup).symm).nodup (List.nodup_dedup l)

theorem uniqIndices_sorted (l : List Nat) : (uniqIndices l).Sorted (· ≥ ·) :=
  sortDesc_sorted _

theorem uniqIndices_strict (l : List Nat) : (uniqIndices l).Sorted (· > ·) := by
  have h1 := uniqIndices_sorted l
  have h2 := uniqIndices_nodup l
  have h3 := List.Pairwise.and h1 h2
  exact List.Pairwise.imp (fun h => by omega) h3

theorem uniqIndices_ne_nil (l : List Nat) (h : l ≠ []) : uniqIndices l ≠ [] := by
  intro hnil
  have hperm := uniqIndices_perm_dedup l
  rw [hnil] at hperm
  have := hperm.length_eq
  simp only [List.length_nil] at this
  have hd : l.dedup = [] := List.length_eq_zero.mp this.symm
  exact h ((List.dedup_eq_nil l).mp hd)

theorem sorted_headD_max (l : List Nat) (h : l.Sorted (· ≥ ·)) :
    ∀ i ∈ l, i ≤ l.headD 0 := by
  cases l with
  | nil => intro i hi; simp at hi
  | cons x xs =>
    intro i hi
    rw [List.sorted_cons] at h
    rcases List.mem_cons.mp hi with h1 | h1
    · subst h1; simp
    · have := h.1 i h1; simpa using this

theorem removeIdxs_length (idxs : List Nat) :
    ∀ (l : List Card), idxs.Sorted (· > ·) → (∀ i ∈ idxs, i < l.length) →
      (removeIdxs l idxs).length + idxs.length = l.length := by
  induction idxs with
  | nil => intro l _ _; simp [removeIdxs]
  | cons i rest ih =>
    intro l hsorted hbound
    rw [List.sorted_cons] at hsorted
    obtain ⟨hgt, hrest⟩ := hsorted
    have hi : i < l.length := hbound i (List.mem_cons_self i rest)
    have hlen : (l.eraseIdx i).length = l.length - 1 := by
      rw [List.length_eraseIdx]
      simp [hi]
    have hbound2 : ∀ j ∈ rest, j < (l.eraseIdx i).length := by
      intro j hj
      have hji := hgt j hj
      rw [hlen]
      omega
    have hrec := ih (l.eraseIdx i) hrest hbound2
    have hstep : removeIdxs l (i :: rest) = removeIdxs (l.eraseIdx i) rest := rfl
    rw [hstep]
    simp only [List.length_cons]
    omega

/-! ### Sums over player lists and turn advancement -/

theorem sum_map_set (f : Player → Nat) (l : List Player) :
    ∀ (i : Nat) (p : Player), i < l.length →
      ((l.set i p).map f).sum + f (l.getD i default) = (l.map f).sum + f p := by
  induction l with
  | nil => intro i p h; simp at h
  | cons a t ih =>
    intro i p h
    cases i with
    | zero =>
      simp only [List.set_cons_zero, List.map_cons, List.sum_cons, List.getD_cons_zero]
      omega
    | succ n =>
      have hn : n < t.length := by simpa using h
      have := ih n p hn
      simp only [List.set_cons_succ, List.map_cons, List.sum_cons, List.getD_cons_succ]
      omega

theorem advanceTurn_stable (s : GameState) :
    (advanceTurn s).players = s.players ∧ (advanceTurn s).status = s.status ∧
    (advanceTurn s).direction = s.direction ∧ (advanceTurn s).activeSuit = s.activeSuit ∧
    (advanceTurn s).pendingDraw2 = s.pendingDraw2 ∧
    (advanceTurn s).pendingDrawJ = s.pendingDrawJ ∧
    (advanceTurn s).pendingSkip = s.pendingSkip ∧ (advanceTurn s).extraTurn = s.extraTurn ∧
    (advanceTurn s).winnerSeat = s.winnerSeat ∧ (advanceTurn s).deck = s.deck ∧
    (advanceTurn s).discard = s.discard ∧ (advanceTurn s).rand = s.rand :=
  ⟨rfl, rfl, rfl, rfl, rfl, rfl, rfl, rfl, rfl, rfl, rfl, rfl⟩

theorem advanceTurn_turnIndex (s : GameState) :
    (advanceTurn s).turnIndex =
      (((s.turnIndex : Int) + s.direction + (s.players.length : Int)) %
        (s.players.length : Int)).toNat := rfl

theorem getD_set_self (l : List Player) (i : Nat) (p : Player) (h : i < l.length) :
    (l.set i p).getD i default = p := by
  rw [List.getD_eq_getElem?_getD, List.getElem?_set_self (by omega)]
  rfl

theorem seat_lt_of_hand_ne (s : GameState) (seat : Nat)
    (h : (s.players.getD seat default).hand ≠ []) : seat < s.players.length := by
  by_contra hge
  push_neg at hge
  rw [List.getD_eq_default _ _ hge] at h
  exact h rfl

/-! ### Acceptance characterisation of applyAction -/

theorem applyAction_play_ok (s : GameState) (seat : Nat) (indices : List Nat)
    (hok : (applyAction s seat (.play indices)).1 = .ok) :
    s.status = .playing ∧ s.turnIndex = seat ∧
    applyAction s seat (.play indices) = applyPlay s seat indices := by
  unfold applyAction at hok ⊢
  by_cases h1 : s.status = Status.playing
  · by_cases h2 : s.turnIndex = seat
    · refine ⟨h1, h2, ?_⟩
      rw [if_neg (by simp [h1]), if_neg (by simp [h2])]
    · rw [if_neg (by simp [h1]), if_pos (by simp [h2])] at hok
      simp at hok
  · rw [if_pos (by simp [h1])] at hok
    simp at hok

theorem applyPlay_ok_cases (s : GameState) (seat : Nat) (indices : List Nat)
    (hok : (applyPlay s seat indices).1 = .ok) :
    indices ≠ [] ∧
    (uniqIndices indices).headD 0 < (s.players.getD seat default).hand.length ∧
    applyPlay s seat indices = (Res.ok, playAccept s seat indices) := by
  unfold applyPlay at hok ⊢
  by_cases h1 : indices.length = 0
  · rw [if_pos h1] at hok; simp at hok
  · rw [if_neg h1] at hok ⊢
    simp only [] at hok ⊢
    by_cases h2 : (uniqIndices indices).headD 0 ≥ (s.players.getD seat default).hand.length
    · rw [if_pos h2] at hok; simp at hok
    · rw [if_neg h2] at hok ⊢
      by_cases h3 : (s.pendingDraw2 > 0 &&
          !(((uniqIndices indices).map
            (fun i => (s.players.getD seat default).hand.getD i default)).headD
              default).rank == Rank.r2) = true
      · rw [if_pos h3] at hok; simp at hok
      · rw [if_neg h3] at hok ⊢
        by_cases h4 : (s.pendingDrawJ > 0 &&
            !(((uniqIndices indices).map
              (fun i => (s.players.getD seat default).hand.getD i default)).headD
                default).rank == Rank.J) = true
        · rw [if_pos h4] at hok; simp at hok
        · rw [if_neg h4] at hok ⊢
          by_cases h5 : (s.pendingSkip > 0 &&
              !(((uniqIndices indices).map
                (fun i => (s.players.getD seat default).hand.getD i default)).headD
                  default).rank == Rank.r8) = true
          · rw [if_pos h5] at hok; simp at hok
          · rw [if_neg h5] at hok ⊢
            by_cases h6 : (!canStart (((uniqIndices indices).map
                (fun i => (s.players.getD seat default).hand.getD i default)).headD default)
                (topCard s) s.activeSuit) = true
            · rw [if_pos h6] at hok; simp at hok
            · rw [if_neg h6] at hok ⊢
              by_cases h7 : (!comboOk ((uniqIndices indices).map
                  (fun i => (s.players.getD seat default).hand.getD i default))) = true
              · rw [if_pos h7] at hok; simp at hok
              · rw [if_neg h7]
                refine ⟨fun hnil => h1 (by simp [hnil]), by omega, rfl⟩

/-! ### The stages of an accepted play -/

theorem afterPlayCards_fields (s : GameState) (seat : Nat) (indices : List Nat) :
    (afterPlayCards s seat indices).players =
      s.players.set seat { s.players.getD seat default with
        hand := removeIdxs (s.players.getD seat default).hand (uniqIndices indices) } ∧
    (afterPlayCards s seat indices).status = s.status ∧
    (afterPlayCards s seat indices).turnIndex = s.turnIndex ∧
    (afterPlayCards s seat indices).winnerSeat = s.winnerSeat ∧
    (afterPlayCards s seat indices).deck = s.deck ∧
    (afterPlayCards s seat indices).rand = s.rand := by
  unfold afterPlayCards
  simp only []
  obtain ⟨p1, p2, p3, p4, p5, p6, p7⟩ := playLoop_stable (playedCards s seat indices)
    { s with players := s.players.set seat { s.players.getD seat default with
        hand := removeIdxs (s.players.getD seat default).hand (uniqIndices indices) } }
    seat (isSetPlay (playedCards s seat indices))
  split
  · exact ⟨by rw [p1], by rw [p2], by rw [p3], by rw [p4], by rw [p5], by rw [p6]⟩
  · exact ⟨by rw [p1], by rw [p2], by rw [p3], by rw [p4], by rw [p5], by rw [p6]⟩

theorem penaltyDraw_fields (s : GameState) (seat : Nat) (n : Nat)
    (hseat : seat < s.players.length) :
    ((penaltyDraw s seat n).players.getD seat default).hand =
      (s.players.getD seat default).hand ++ (drawN s n).1 ∧
    ((penaltyDraw s seat n).players.getD seat default).lastDeclared = false ∧
    (penaltyDraw s seat n).players.length = s.players.length ∧
    (penaltyDraw s seat n).status = s.status ∧
    (penaltyDraw s seat n).turnIndex = s.turnIndex ∧
    (penaltyDraw s seat n).direction = s.direction ∧
    (penaltyDraw s seat n).winnerSeat = s.winnerSeat := by
  unfold penaltyDraw
  simp only []
  obtain ⟨d1, d2, d3, d4, d5, d6, d7, d8, d9, d10⟩ := drawN_stable n s
  have hlen : (drawN s n).2.players.length = s.players.length := by rw [d1]
  have hgd : (drawN s n).2.players.getD seat default = s.players.getD seat default := by
    rw [d1]
  refine ⟨?_, ?_, ?_, ?_, ?_, ?_, ?_⟩
  · rw [getD_set_self _ _ _ (by omega), hgd]
  · rw [getD_set_self _ _ _ (by omega)]
  · simp [List.length_set, hlen]
  · exact d2
  · exact d3
  · exact d4
  · exact d10

/-! ### Claim theorems -/

/-- C1: for every accepted play that empties the hand of a player whose
lastDeclared flag is false, the player force-draws the fixed 2-card penalty
(so the hand becomes non-empty again, exactly 2 cards), lastDeclared stays
cleared, the turn advances normally by one step in the current direction,
and the player is never recorded as winner (the game stays in the playing
status and winnerSeat is unchanged). -/
theorem dirty_finish_penalized (s : GameState) (seat : Nat) (indices : List Nat)
    (hok : (applyAction s seat (.play indices)).1 = .ok)
    (hlast : (s.players.getD seat default).lastDeclared = false)
    (hempty : removeIdxs (s.players.getD seat default).hand (uniqIndices indices) = []) :
    ((applyAction s seat (.play indices)).2.players.getD seat default).hand.length = 2 ∧
    ((applyAction s seat (.play indices)).2.players.getD seat default).lastDeclared = false ∧
    (applyAction s seat (.play indices)).2.status = .playing ∧
    (applyAction s seat (.play indices)).2.winnerSeat = s.winnerSeat ∧
    (applyAction s seat (.play indices)).2.turnIndex =
      (((seat : Int) + (applyAction s seat (.play indices)).2.direction +
        (s.players.length : Int)) % (s.players.length : Int)).toNat := by
  obtain ⟨hst, hturn, heq⟩ := applyAction_play_ok s seat indices hok
  rw [heq] at hok ⊢
  obtain ⟨hne, hlt, heq2⟩ := applyPlay_ok_cases s seat indices hok
  rw [heq2]
  simp only []
  have hseat : seat < s.players.length := by
    apply seat_lt_of_hand_ne
    intro hnil
    rw [hnil] at hlt
    simp at hlt
  have hbranch : playAccept s seat indices =
      advanceTurn (penaltyDraw (afterPlayCards s seat indices) seat 2) := by
    unfold playAccept
    simp only []
    rw [if_pos (by rw [hempty, hlast]; rfl)]
  rw [hbranch]
  obtain ⟨a1, a2, a3, a4, a5, a6⟩ := afterPlayCards_fields s seat indices
  have hlen3 : (afterPlayCards s seat indices).players.length = s.players.length := by
    rw [a1, List.length_set]
  have hseat3 : seat < (afterPlayCards s seat indices).players.length := by omega
  obtain ⟨q1, q2, q3, q4, q5, q6, q7⟩ :=
    penaltyDraw_fields (afterPlayCards s seat indices) seat 2 hseat3
  obtain ⟨t1, t2, t3, t4, t5, t6, t7, t8, t9, t10, t11, t12⟩ :=
    advanceTurn_stable (penaltyDraw (afterPlayCards s seat indices) seat 2)
  have hhand3 : ((afterPlayCards s seat indices).players.getD seat default).hand = [] := by
    rw [a1, getD_set_self _ _ _ hseat]
    exact hempty
  refine ⟨?_, ?_, ?_, ?_, ?_⟩
  · rw [t1, q1, hhand3]
    simp [drawN_length]
  · rw [t1, q2]
  · rw [t2, q4, a2, hst]
  · rw [t9, q7, a4]
  · rw [advanceTurn_turnIndex, q5, a3, hturn, t3, q3, hlen3]

/-- C3 (amended): for every accepted play with lastDeclared set that empties
the hand on a terminal power card, the finish is rejected with a 1-card
force-draw, lastDeclared is cleared, the turn advances and no winner is set.
(The pending extra-turn grant is NOT cancelled; see the counterexample.) -/
theorem power_finish_penalized (s : GameState) (seat : Nat) (indices : List Nat)
    (hok : (applyAction s seat (.play indices)).1 = .ok)
    (hlast : (s.players.getD seat default).lastDeclared = true)
    (hempty : removeIdxs (s.players.getD seat default).hand (uniqIndices indices) = [])
    (hpow : isPower ((playedCards s seat indices).getLastD default).rank = true) :
    ((applyAction s seat (.play indices)).2.players.getD seat default).hand.length = 1 ∧
    ((applyAction s seat (.play indices)).2.players.getD seat default).lastDeclared = false ∧
    (applyAction s seat (.play indices)).2.status = .playing ∧
    (applyAction s seat (.play indices)).2.winnerSeat = s.winnerSeat ∧
    (applyAction s seat (.play indices)).2.turnIndex =
      (((seat : Int) + (applyAction s seat (.play indices)).2.direction +
        (s.players.length : Int)) % (s.players.length : Int)).toNat := by
  obtain ⟨hst, hturn, heq⟩ := applyAction_play_ok s seat indices hok
  rw [heq] at hok ⊢
  obtain ⟨hne, hlt, heq2⟩ := applyPlay_ok_cases s seat indices hok
  rw [heq2]
  simp only []
  have hseat : seat < s.players.length := by
    apply seat_lt_of_hand_ne
    intro hnil
    rw [hnil] at hlt
    simp at hlt
  have hbranch : playAccept s seat indices =
      advanceTurn (penaltyDraw (afterPlayCards s seat indices) seat 1) := by
    unfold playAccept
    simp only []
    rw [if_neg (by rw [hempty, hlast]; simp)]
    rw [if_pos (by rw [hempty, hpow]; rfl)]
  rw [hbranch]
  obtain ⟨a1, a2, a3, a4, a5, a6⟩ := afterPlayCards_fields s seat indices
  have hlen3 : (afterPlayCards s seat indices).players.length = s.players.length := by
    rw [a1, List.length_set]
  have hseat3 : seat < (afterPlayCards s seat indices).players.length := by omega
  obtain ⟨q1, q2, q3, q4, q5, q6, q7⟩ :=
    penaltyDraw_fields (afterPlayCards s seat indices) seat 1 hseat3
  obtain ⟨t1, t2, t3, t4, t5, t6, t7, t8, t9, t10, t11, t12⟩ :=
    advanceTurn_stable (penaltyDraw (afterPlayCards s seat indices) seat 1)
  have hhand3 : ((afterPlayCards s seat indices).players.getD seat default).hand = [] := by
    rw [a1, getD_set_self _ _ _ hseat]
    exact hempty
  refine ⟨?_, ?_, ?_, ?_, ?_⟩
  · rw [t1, q1, hhand3]
    simp [drawN_length]
  · rw [t1, q2]
  · rw [t2, q4, a2, hst]
  · rw [t9, q7, a4]
  · rw [advanceTurn_turnIndex, q5, a3, hturn, t3, q3, hlen3]

/-- getLastD of a nonempty list is a member. -/
theorem getLastD_mem_of_ne (l : List Card) (d : Card) (h : l ≠ []) : l.getLastD d ∈ l := by
  induction l with
  | nil => exact absurd rfl h
  | cons x t ih =>
    by_cases ht : t = []
    · subst ht
      simp
    · have : (x :: t).getLastD d = t.getLastD x := by
        cases t with
        | nil => exact absurd rfl ht
        | cons y u => rfl
      rw [this, getLastD_irrel t x d ht]
      exact List.mem_cons_of_mem x (ih ht)

/-- In an all-same-rank set whose terminal card is an Ace, every card is an
Ace. -/
theorem isSet_terminal_A (cards : List Card) (hne : cards ≠ [])
    (hset : isSetPlay cards = true) (hA : (cards.getLastD default).rank = .A) :
    ∀ c ∈ cards, c.rank = .A := by
  unfold isSetPlay at hset
  rw [Bool.and_eq_true] at hset
  have hall := hset.2
  rw [List.all_eq_true] at hall
  have hlastmem := getLastD_mem_of_ne cards default hne
  have hlasthead := hall _ hlastmem
  rw [beq_iff_eq] at hlasthead
  intro c hc
  have := hall c hc
  rw [beq_iff_eq] at this
  rw [this, ← hlasthead, hA]

/-- C4 (amended): an accepted play whose terminal card is an Ace (and which
does not empty the hand, with no extra-turn already granted) immediately
auto-picks the active suit as the most frequent suit of the remaining hand
(the bot-like choice of chooseSuitForBotLike) and the turn advances
normally; there is no pending suit-choice state. -/
theorem ace_autopick_suit (s : GameState) (seat : Nat) (indices : List Nat)
    (hok : (applyAction s seat (.play indices)).1 = .ok)
    (hA : ((playedCards s seat indices).getLastD default).rank = .A)
    (hnotempty : removeIdxs (s.players.getD seat default).hand (uniqIndices indices) ≠ [])
    (hx : s.extraTurn = false) :
    (applyAction s seat (.play indices)).2.activeSuit =
      some (bestSuitOf
        (removeIdxs (s.players.getD seat default).hand (uniqIndices indices))) ∧
    (applyAction s seat (.play indices)).2.direction = s.direction ∧
    (applyAction s seat (.play indices)).2.turnIndex =
      (((seat : Int) + s.direction + (s.players.length : Int)) %
        (s.players.length : Int)).toNat := by
  obtain ⟨hst, hturn, heq⟩ := applyAction_play_ok s seat indices hok
  rw [heq] at hok ⊢
  obtain ⟨hne, hlt, heq2⟩ := applyPlay_ok_cases s seat indices hok
  rw [heq2]
  simp only []
  have hseat : seat < s.players.length := by
    apply seat_lt_of_hand_ne
    intro hnil
    rw [hnil] at hlt
    simp at hlt
  have hcards_ne : playedCards s seat indices ≠ [] := by
    unfold playedCards
    intro hnil
    exact uniqIndices_ne_nil indices hne (List.map_eq_nil_iff.mp hnil)
  -- the state after the discard/power loop (the Ace suppresses the suit update)
  have hs3 : afterPlayCards s seat indices =
      playLoop { s with players := s.players.set seat { s.players.getD seat default with
          hand := removeIdxs (s.players.getD seat default).hand (uniqIndices indices) } }
        (playedCards s seat indices) seat (isSetPlay (playedCards s seat indices)) := by
    unfold afterPlayCards
    simp only []
    rw [if_neg (by rw [hA]; simp)]
  have hor : isSetPlay (playedCards s seat indices) = false ∨
      ∀ c ∈ playedCards s seat indices, c.rank = .A := by
    by_cases hsv : isSetPlay (playedCards s seat indices) = true
    · exact Or.inr (isSet_terminal_A _ hcards_ne hsv hA)
    · exact Or.inl (by simpa using hsv)
  obtain ⟨hsuit, hxt, hdir⟩ := playLoop_A_terminal (playedCards s seat indices)
    { s with players := s.players.set seat { s.players.getD seat default with
        hand := removeIdxs (s.players.getD seat default).hand (uniqIndices indices) } }
    seat (isSetPlay (playedCards s seat indices)) hcards_ne hA hor
  rw [getD_set_self _ _ _ hseat] at hsuit
  have hbranch : playAccept s seat indices = advanceTurn (afterPlayCards s seat indices) := by
    unfold playAccept
    simp only []
    rw [if_neg (by
      intro hcontra
      rw [Bool.and_eq_true, List.isEmpty_iff] at hcontra
      exact hnotempty hcontra.1)]
    rw [if_neg (by
      intro hcontra
      rw [Bool.and_eq_true, List.isEmpty_iff] at hcontra
      exact hnotempty hcontra.1)]
    rw [if_neg (by
      intro hcontra
      rw [List.isEmpty_iff] at hcontra
      exact hnotempty hcontra)]
    rw [if_neg (by rw [hs3, hxt]; simp [hx])]
  rw [hbranch]
  obtain ⟨t1, t2, t3, t4, t5, t6, t7, t8, t9, t10, t11, t12⟩ :=
    advanceTurn_stable (afterPlayCards s seat indices)
  obtain ⟨a1, a2, a3, a4, a5, a6⟩ := afterPlayCards_fields s seat indices
  have hlen3 : (afterPlayCards s seat indices).players.length = s.players.length := by
    rw [a1, List.length_set]
  have hdir3 : (afterPlayCards s seat indices).direction = s.direction := by
    rw [hs3]; exact hdir
  have hsuit3 : (afterPlayCards s seat indices).activeSuit =
      some (bestSuitOf
        (removeIdxs (s.players.getD seat default).hand (uniqIndices indices))) := by
    rw [hs3]; exact hsuit
  refine ⟨?_, ?_, ?_⟩
  · rw [t4, hsuit3]
  · rw [t3, hdir3]
  · rw [advanceTurn_turnIndex, a3, hturn, hdir3, hlen3]

/-! ### Rejections do not mutate the state -/

theorem applyPlay_err_unchanged (s : GameState) (seat : Nat) (indices : List Nat)
    (msg : String) (h : (applyPlay s seat indices).1 = .err msg) :
    (applyPlay s seat indices).2 = s := by
  unfold applyPlay at h ⊢
  by_cases h1 : indices.length = 0
  · rw [if_pos h1]
  · rw [if_neg h1] at h ⊢
    simp only [] at h ⊢
    by_cases h2 : (uniqIndices indices).headD 0 ≥ (s.players.getD seat default).hand.length
    · rw [if_pos h2]
    · rw [if_neg h2] at h ⊢
      by_cases h3 : (s.pendingDraw2 > 0 &&
          !(((uniqIndices indices).map
            (fun i => (s.players.getD seat default).hand.getD i default)).headD
              default).rank == Rank.r2) = true
      · rw [if_pos h3]
      · rw [if_neg h3] at h ⊢
        by_cases h4 : (s.pendingDrawJ > 0 &&
            !(((uniqIndices indices).map
              (fun i => (s.players.getD seat default).hand.getD i default)).headD
                default).rank == Rank.J) = true
        · rw [if_pos h4]
        · rw [if_neg h4] at h ⊢
          by_cases h5 : (s.pendingSkip > 0 &&
              !(((uniqIndices indices).map
                (fun i => (s.players.getD seat default).hand.getD i default)).headD
                  default).rank == Rank.r8) = true
          · rw [if_pos h5]
          · rw [if_neg h5] at h ⊢
            by_cases h6 : (!canStart (((uniqIndices indices).map
                (fun i => (s.players.getD seat default).hand.getD i default)).headD default)
                (topCard s) s.activeSuit) = true
            · rw [if_pos h6]
            · rw [if_neg h6] at h ⊢
              by_cases h7 : (!comboOk ((uniqIndices indices).map
                  (fun i => (s.players.getD seat default).hand.getD i default))) = true
              · rw [if_pos h7]
              · rw [if_neg h7] at h
                simp at h

theorem applyDraw_fst (s : GameState) (seat : Nat) : (applyDraw s seat).1 = .ok := by
  unfold applyDraw
  by_cases h1 : s.pendingDraw2 > 0
  · rw [if_pos h1]
  · rw [if_neg h1]
    by_cases h2 : s.pendingDrawJ > 0
    · rw [if_pos h2]
    · rw [if_neg h2]
      by_cases h3 : s.pendingSkip > 0
      · rw [if_pos h3]
      · rw [if_neg h3]

theorem applyAction_err_unchanged (s : GameState) (seat : Nat) (a : Action) (msg : String)
    (h : (applyAction s seat a).1 = .err msg) : (applyAction s seat a).2 = s := by
  unfold applyAction at h ⊢
  by_cases h1 : s.status = Status.playing
  · rw [if_neg (by simp [h1])] at h ⊢
    by_cases h2 : s.turnIndex = seat
    · rw [if_neg (by simp [h2])] at h ⊢
      cases a with
      | declareLast => simp at h
      | draw =>
        have hd : (applyDraw s seat).1 = Res.err msg := h
        rw [applyDraw_fst] at hd
        simp at hd
      | play indices =>
        exact applyPlay_err_unchanged s seat indices msg h
      | other => rfl
    · rw [if_pos (by simp [h2])]
  · rw [if_pos (by simp [h1])]

/-- C6: if the action processor rejects an intent (returns an error result),
the table state is left completely unchanged. -/
theorem rejection_leaves_state_unchanged (s : GameState) (seat : Nat) (a : Action)
    (msg : String) (h : (applyAction s seat a).1 = .err msg) :
    (applyAction s seat a).2 = s :=
  applyAction_err_unchanged s seat a msg h

/-! ### A play changes at most one of the two draw counters -/

theorem penaltyDraw_pendings (s : GameState) (seat : Nat) (n : Nat) :
    (penaltyDraw s seat n).pendingDraw2 = s.pendingDraw2 ∧
    (penaltyDraw s seat n).pendingDrawJ = s.pendingDrawJ ∧
    (penaltyDraw s seat n).pendingSkip = s.pendingSkip := by
  obtain ⟨_, _, _, _, _, d6, d7, d8, _, _⟩ := drawN_stable n s
  exact ⟨d6, d7, d8⟩

theorem afterPlayCards_one_counter (s : GameState) (seat : Nat) (indices : List Nat)
    (hne : playedCards s seat indices ≠ []) :
    (afterPlayCards s seat indices).pendingDraw2 = s.pendingDraw2 ∨
    (afterPlayCards s seat indices).pendingDrawJ = s.pendingDrawJ := by
  have key : ∀ (s1 : GameState), s1.pendingDraw2 = s.pendingDraw2 →
      s1.pendingDrawJ = s.pendingDrawJ →
      (playLoop s1 (playedCards s seat indices) seat
        (isSetPlay (playedCards s seat indices))).pendingDraw2 = s.pendingDraw2 ∨
      (playLoop s1 (playedCards s seat indices) seat
        (isSetPlay (playedCards s seat indices))).pendingDrawJ = s.pendingDrawJ := by
    intro s1 hp2 hpJ
    by_cases hset : isSetPlay (playedCards s seat indices) = true
    · have hall : ∀ c ∈ playedCards s seat indices,
          c.rank = ((playedCards s seat indices).headD default).rank := by
        unfold isSetPlay at hset
        rw [Bool.and_eq_true, List.all_eq_true] at hset
        intro c hc
        have := hset.2 c hc
        rwa [beq_iff_eq] at this
      by_cases hr : ((playedCards s seat indices).headD default).rank = Rank.r2
      · right
        rw [playLoop_drawJ_of_noJ _ s1 seat _ (fun c hc => by rw [hall c hc, hr]; simp)]
        exact hpJ
      · left
        rw [playLoop_draw2_of_no2 _ s1 seat _ (fun c hc => by rw [hall c hc]; exact hr)]
        exact hp2
    · have hsetF : isSetPlay (playedCards s seat indices) = false := by simpa using hset
      rw [hsetF]
      by_cases hr : ((playedCards s seat indices).getLastD default).rank = Rank.r2
      · right
        rw [playLoop_nonset_drawJ _ s1 seat hne (by rw [hr]; simp)]
        exact hpJ
      · left
        rw [playLoop_nonset_draw2 _ s1 seat hne hr]
        exact hp2
  have key2 := key { s with players := s.players.set seat ({ s.players.getD seat default with hand := removeIdxs (s.players.getD seat default).hand (uniqIndices indices) }) } rfl rfl
  unfold afterPlayCards
  simp only []
  split
  · rcases key2 with h | h
    · left; exact h
    · right; exact h
  · exact key2

theorem playAccept_pendings (s : GameState) (seat : Nat) (indices : List Nat) :
    (playAccept s seat indices).pendingDraw2 = (afterPlayCards s seat indices).pendingDraw2 ∧
    (playAccept s seat indices).pendingDrawJ = (afterPlayCards s seat indices).pendingDrawJ := by
  unfold playAccept
  simp only []
  obtain ⟨c1, c2, _⟩ := penaltyDraw_pendings (afterPlayCards s seat indices) seat 2
  obtain ⟨e1, e2, _⟩ := penaltyDraw_pendings (afterPlayCards s seat indices) seat 1
  split
  · exact ⟨c1, c2⟩
  · split
    · exact ⟨e1, e2⟩
    · split
      · exact ⟨rfl, rfl⟩
      · split
        · exact ⟨rfl, rfl⟩
        · exact ⟨rfl, rfl⟩

theorem applyPlay_touches_one_counter (s : GameState) (seat : Nat) (indices : List Nat) :
    (applyPlay s seat indices).2.pendingDraw2 = s.pendingDraw2 ∨
    (applyPlay s seat indices).2.pendingDrawJ = s.pendingDrawJ := by
  cases hres : (applyPlay s seat indices).1 with
  | err msg =>
    left
    rw [applyPlay_err_unchanged s seat indices msg hres]
  | ok =>
    obtain ⟨hne, hlt, heq2⟩ := applyPlay_ok_cases s seat indices hres
    rw [heq2]
    simp only []
    have hcards_ne : playedCards s seat indices ≠ [] := by
      unfold playedCards
      intro hnil
      exact uniqIndices_ne_nil indices hne (List.map_eq_nil_iff.mp hnil)
    obtain ⟨k1, k2⟩ := playAccept_pendings s seat indices
    rcases afterPlayCards_one_counter s seat indices hcards_ne with h | h
    · left; rw [k1, h]
    · right; rw [k2, h]

theorem applyDraw_pendings (s : GameState) (seat : Nat) :
    (applyDraw s seat).2.pendingDraw2 = s.pendingDraw2 ∨
    (applyDraw s seat).2.pendingDrawJ = s.pendingDrawJ := by
  unfold applyDraw
  simp only []
  split
  · right
    obtain ⟨-, -, -, -, -, -, h7, -, -, -⟩ :=
      drawN_stable s.pendingDraw2 { s with pendingDraw2 := 0 }
    exact h7
  · split
    · left
      obtain ⟨-, -, -, -, -, h6, -, -, -, -⟩ :=
        drawN_stable s.pendingDrawJ { s with pendingDrawJ := 0 }
      exact h6
    · split
      · left
        rfl
      · left
        obtain ⟨-, -, -, -, -, h6, -, -, -, -⟩ := drawN_stable 1 s
        exact h6

/-- C5 (amended): a single action - play, draw, declare-last or unknown,
accepted or rejected - never changes both pendingDraw2 and pendingDrawJ: at
least one of the two counters keeps its previous value (play effects fire
only for the terminal card or an all-same-rank set, which has a single rank,
and a draw settles at most one debt).  Both counters can nevertheless be
simultaneously non-zero, because a play made under a pending draw-2 gate can
terminate in a black Jack; see the counterexample. -/
theorem action_touches_one_counter (s : GameState) (seat : Nat) (a : Action) :
    (applyAction s seat a).2.pendingDraw2 = s.pendingDraw2 ∨
    (applyAction s seat a).2.pendingDrawJ = s.pendingDrawJ := by
  unfold applyAction
  by_cases h1 : s.status = Status.playing
  · by_cases h2 : s.turnIndex = seat
    · rw [if_neg (by simp [h1]), if_neg (by simp [h2])]
      cases a with
      | declareLast => left; rfl
      | draw => exact applyDraw_pendings s seat
      | play indices => exact applyPlay_touches_one_counter s seat indices
      | other => left; rfl
    · rw [if_neg (by simp [h1]), if_pos (by simp [h2])]
      left; rfl
  · rw [if_pos (by simp [h1])]
    left; rfl

/-! ### Drawing while a skip is pending -/

theorem applyAction_draw_ok (s : GameState) (seat : Nat)
    (hok : (applyAction s seat .draw).1 = .ok) :
    s.status = .playing ∧ s.turnIndex = seat ∧
    applyAction s seat .draw = applyDraw s seat := by
  unfold applyAction at hok ⊢
  by_cases h1 : s.status = Status.playing
  · by_cases h2 : s.turnIndex = seat
    · refine ⟨h1, h2, ?_⟩
      rw [if_neg (by simp [h1]), if_neg (by simp [h2])]
    · rw [if_neg (by simp [h1]), if_pos (by simp [h2])] at hok
      simp at hok
  · rw [if_pos (by simp [h1])] at hok
    simp at hok

/-- C8 (amended): when only a skip is pending (no draw-2 and no Jack stack),
an accepted draw clears the WHOLE pendingSkip stack to zero, draws no card
(hand, deck and discard are untouched), and advances the turn by one step. -/
theorem skip_draw_zeroes (s : GameState) (seat : Nat)
    (hok : (applyAction s seat .draw).1 = .ok)
    (h2 : s.pendingDraw2 = 0) (hJ : s.pendingDrawJ = 0) (hS : s.pendingSkip > 0) :
    (applyAction s seat .draw).2.pendingSkip = 0 ∧
    (applyAction s seat .draw).2.players = s.players ∧
    (applyAction s seat .draw).2.deck = s.deck ∧
    (applyAction s seat .draw).2.discard = s.discard ∧
    (applyAction s seat .draw).2.turnIndex =
      (((seat : Int) + s.direction + (s.players.length : Int)) %
        (s.players.length : Int)).toNat := by
  obtain ⟨hst, hturn, heq⟩ := applyAction_draw_ok s seat hok
  rw [heq]
  unfold applyDraw
  simp only []
  rw [if_neg (by omega), if_neg (by omega), if_pos hS]
  refine ⟨rfl, rfl, rfl, rfl, ?_⟩
  rw [advanceTurn_turnIndex]
  dsimp only
  rw [hturn]

/-! ### Conservation of the card count modulo fresh-deck minting -/

theorem advanceTurn_total (s : GameState) : totalCards (advanceTurn s) = totalCards s := rfl

theorem set_give_handSum (l : List Player) (seat : Nat) (p2 : Player) (k : Nat)
    (hseat : seat < l.length)
    (hlen : p2.hand.length = (l.getD seat default).hand.length + k) :
    ((l.set seat p2).map (fun q => q.hand.length)).sum =
      (l.map (fun q => q.hand.length)).sum + k := by
  have h := sum_map_set (fun q => q.hand.length) l seat p2 hseat
  dsimp only at h
  omega

theorem penaltyDraw_total (s : GameState) (seat : Nat) (n : Nat)
    (hseat : seat < s.players.length) :
    totalCards (penaltyDraw s seat n) % 52 = totalCards s % 52 := by
  obtain ⟨d1, _⟩ := drawN_stable n s
  have hgd : (drawN s n).2.players.getD seat default = s.players.getD seat default := by
    rw [d1]
  have hlen2 : (drawN s n).2.players.length = s.players.length := by rw [d1]
  have hs := set_give_handSum (drawN s n).2.players seat
    ({ (drawN s n).2.players.getD seat default with hand := ((drawN s n).2.players.getD seat default).hand ++ (drawN s n).1, lastDeclared := false })
    n (by omega) (by dsimp only; rw [List.length_append, drawN_length])
  have hcons := drawN_conserve n s
  have hhs : ((drawN s n).2.players.map (fun q => q.hand.length)).sum =
      (s.players.map (fun q => q.hand.length)).sum := by rw [d1]
  have t1 : totalCards (penaltyDraw s seat n) =
      (((drawN s n).2.players.set seat
        ({ (drawN s n).2.players.getD seat default with hand := ((drawN s n).2.players.getD seat default).hand ++ (drawN s n).1, lastDeclared := false })).map
          (fun q => q.hand.length)).sum +
      (drawN s n).2.deck.length + (drawN s n).2.discard.length := rfl
  have t2 : totalCards s = (s.players.map (fun q => q.hand.length)).sum +
      s.deck.length + s.discard.length := rfl
  omega

theorem drawGive_total (s0 : GameState) (seat : Nat) (n : Nat) (p : Player)
    (hseat : seat < s0.players.length)
    (hp : s0.players.getD seat default = p) :
    totalCards (advanceTurn { (drawN s0 n).2 with
      players := (drawN s0 n).2.players.set seat ({ p with hand := p.hand ++ (drawN s0 n).1 }) }) % 52 =
      totalCards s0 % 52 := by
  obtain ⟨d1, _⟩ := drawN_stable n s0
  have hgd : (drawN s0 n).2.players.getD seat default = p := by rw [d1, hp]
  have hlen2 : (drawN s0 n).2.players.length = s0.players.length := by rw [d1]
  have hs := set_give_handSum (drawN s0 n).2.players seat
    ({ p with hand := p.hand ++ (drawN s0 n).1 }) n (by omega)
    (by dsimp only; rw [hgd, List.length_append, drawN_length])
  have hcons := drawN_conserve n s0
  have hhs : ((drawN s0 n).2.players.map (fun q => q.hand.length)).sum =
      (s0.players.map (fun q => q.hand.length)).sum := by rw [d1]
  have t1 : totalCards (advanceTurn { (drawN s0 n).2 with
      players := (drawN s0 n).2.players.set seat ({ p with hand := p.hand ++ (drawN s0 n).1 }) }) =
      (((drawN s0 n).2.players.set seat ({ p with hand := p.hand ++ (drawN s0 n).1 })).map
        (fun q => q.hand.length)).sum +
      (drawN s0 n).2.deck.length + (drawN s0 n).2.discard.length := rfl
  have t2 : totalCards s0 = (s0.players.map (fun q => q.hand.length)).sum +
      s0.deck.length + s0.discard.length := rfl
  omega

theorem afterPlayCards_discard (s : GameState) (seat : Nat) (indices : List Nat) :
    (afterPlayCards s seat indices).discard = s.discard ++ playedCards s seat indices := by
  unfold afterPlayCards
  simp only []
  obtain ⟨_, _, _, _, _, _, p7⟩ := playLoop_stable (playedCards s seat indices)
    { s with players := s.players.set seat ({ s.players.getD seat default with hand := removeIdxs (s.players.getD seat default).hand (uniqIndices indices) }) }
    seat (isSetPlay (playedCards s seat indices))
  split
  · exact p7
  · exact p7

theorem afterPlayCards_total (s : GameState) (seat : Nat) (indices : List Nat)
    (hseat : seat < s.players.length)
    (hlt : (uniqIndices indices).headD 0 < (s.players.getD seat default).hand.length) :
    totalCards (afterPlayCards s seat indices) = totalCards s := by
  have hbound : ∀ i ∈ uniqIndices indices, i < (s.players.getD seat default).hand.length := by
    intro i hi
    have := sorted_headD_max (uniqIndices indices) (uniqIndices_sorted indices) i hi
    omega
  have hrem := removeIdxs_length (uniqIndices indices) (s.players.getD seat default).hand
    (uniqIndices_strict indices) hbound
  have hcards_len : (playedCards s seat indices).length = (uniqIndices indices).length := by
    unfold playedCards
    rw [List.length_map]
  obtain ⟨a1, a2, a3, a4, a5, a6⟩ := afterPlayCards_fields s seat indices
  have hdisc := afterPlayCards_discard s seat indices
  have hsum := sum_map_set (fun q => q.hand.length) s.players seat
    ({ s.players.getD seat default with hand := removeIdxs (s.players.getD seat default).hand (uniqIndices indices) }) hseat
  dsimp only at hsum
  have t1 : totalCards (afterPlayCards s seat indices) =
      ((afterPlayCards s seat indices).players.map (fun q => q.hand.length)).sum +
      (afterPlayCards s seat indices).deck.length +
      (afterPlayCards s seat indices).discard.length := rfl
  rw [a1, a5, hdisc] at t1
  simp only [List.length_append] at t1
  rw [hcards_len] at t1
  have t2 : totalCards s = (s.players.map (fun q => q.hand.length)).sum +
      s.deck.length + s.discard.length := rfl
  omega

theorem playAccept_total (s : GameState) (seat : Nat) (indices : List Nat)
    (hseat3 : seat < (afterPlayCards s seat indices).players.length) :
    totalCards (playAccept s seat indices) % 52 =
      totalCards (afterPlayCards s seat indices) % 52 := by
  unfold playAccept
  simp only []
  split
  · rw [advanceTurn_total, penaltyDraw_total _ _ _ hseat3]
  · split
    · rw [advanceTurn_total, penaltyDraw_total _ _ _ hseat3]
    · split
      · rfl
      · split
        · rfl
        · rw [advanceTurn_total]

/-- C2 (amended): every operation of the action processor preserves the total
number of cards on the table MODULO 52: the count is exactly preserved except
when a draw exhausts the deck while the discard pile holds at most one card,
in which case a completely fresh 52-card deck is minted (src/server.js
lines 97-102) and the total grows by 52.  The exact invariant
`totalCards == 52` is therefore reachable to violate; see the
counterexample. -/
theorem operation_conserves_mod52 (s : GameState) (seat : Nat) (a : Action)
    (hseat : seat < s.players.length) :
    totalCards (applyAction s seat a).2 % 52 = totalCards s % 52 := by
  cases hres : (applyAction s seat a).1 with
  | err msg => rw [applyAction_err_unchanged s seat a msg hres]
  | ok =>
    unfold applyAction at hres ⊢
    by_cases h1 : s.status = Status.playing
    · rw [if_neg (by simp [h1])] at hres ⊢
      by_cases h2 : s.turnIndex = seat
      · rw [if_neg (by simp [h2])] at hres ⊢
        cases a with
        | declareLast =>
          show totalCards { s with players := s.players.set seat ({ s.players.getD seat default with lastDeclared := true }) } % 52 = totalCards s % 52
          have hs := set_give_handSum s.players seat
            ({ s.players.getD seat default with lastDeclared := true }) 0 hseat (by simp)
          have t1 : totalCards { s with players := s.players.set seat ({ s.players.getD seat default with lastDeclared := true }) } =
              ((s.players.set seat ({ s.players.getD seat default with lastDeclared := true })).map
                (fun q => q.hand.length)).sum + s.deck.length + s.discard.length := rfl
          have t2 : totalCards s = (s.players.map (fun q => q.hand.length)).sum +
              s.deck.length + s.discard.length := rfl
          omega
        | draw =>
          show totalCards (applyDraw s seat).2 % 52 = totalCards s % 52
          unfold applyDraw
          simp only []
          by_cases hp2 : s.pendingDraw2 > 0
          · rw [if_pos hp2]
            have hg := drawGive_total { s with pendingDraw2 := 0 } seat s.pendingDraw2
              (s.players.getD seat default) hseat rfl
            rw [show totalCards { s with pendingDraw2 := 0 } = totalCards s from rfl] at hg
            exact hg
          · rw [if_neg hp2]
            by_cases hpJ : s.pendingDrawJ > 0
            · rw [if_pos hpJ]
              have hg := drawGive_total { s with pendingDrawJ := 0 } seat s.pendingDrawJ
                (s.players.getD seat default) hseat rfl
              rw [show totalCards { s with pendingDrawJ := 0 } = totalCards s from rfl] at hg
              exact hg
            · rw [if_neg hpJ]
              by_cases hpS : s.pendingSkip > 0
              · rw [if_pos hpS]
                rfl
              · rw [if_neg hpS]
                exact drawGive_total s seat 1 (s.players.getD seat default) hseat rfl
        | play indices =>
          show totalCards (applyPlay s seat indices).2 % 52 = totalCards s % 52
          have hok : (applyPlay s seat indices).1 = Res.ok := hres
          obtain ⟨hne, hlt, heq2⟩ := applyPlay_ok_cases s seat indices hok
          rw [heq2]
          simp only []
          obtain ⟨a1, _⟩ := afterPlayCards_fields s seat indices
          have hlen3 : (afterPlayCards s seat indices).players.length = s.players.length := by
            rw [a1, List.length_set]
          have h3 := afterPlayCards_total s seat indices hseat hlt
          have h4 := playAccept_total s seat indices (by omega)
          omega
        | other =>
          have hcontra : (Res.err "Unknown action" : Res) = Res.ok := hres
          simp at hcontra
      · rw [if_pos (by simp [h2])] at hres
        simp at hres
    · rw [if_pos (by simp [h1])] at hres
      simp at hres

/-! ### Structure of a freshly created 2-player match -/

theorem drawOne_of_ne (s : GameState) (h : s.deck ≠ []) :
    drawOne s = ([s.deck.getLastD default], { s with deck := s.deck.dropLast }) := by
  have hE : s.deck.isEmpty = false := by simpa [List.isEmpty_iff] using h
  unfold drawOne popTop
  simp only [hE, Bool.false_eq_true, if_false]

theorem drawN_one (s : GameState) (h : s.deck ≠ []) :
    drawN s 1 = ([s.deck.getLastD default], { s with deck := s.deck.dropLast }) := by
  show ((drawOne s).1 ++ (drawN (drawOne s).2 0).1, (drawN (drawOne s).2 0).2) = _
  rw [drawOne_of_ne s h]
  rfl

theorem dealOne_two (s : GameState) (p0 p1 : Player) (hp : s.players = [p0, p1])
    (h : s.deck ≠ []) (i : Nat) (pi : Player) (hi : [p0, p1].getD i default = pi) :
    dealOne s i = { s with
      deck := s.deck.dropLast,
      players := [p0, p1].set i ({ pi with hand := pi.hand ++ [s.deck.getLastD default] }) } := by
  unfold dealOne
  simp only []
  rw [drawN_one s h]
  dsimp only
  rw [hp, hi]

theorem foldl_range_succ (f : GameState → Nat → GameState) (s : GameState) (k : Nat) :
    (List.range (k + 1)).foldl f s = f ((List.range k).foldl f s) k := by
  rw [List.range_succ, List.foldl_append]
  rfl

theorem dealRound_two (s : GameState) (p0 p1 : Player) (hp : s.players = [p0, p1])
    (hd : 2 ≤ s.deck.length) :
    dealRound s = { s with
      deck := s.deck.dropLast.dropLast,
      players := [{ p0 with hand := p0.hand ++ [s.deck.getLastD default] },
                  { p1 with hand := p1.hand ++ [s.deck.dropLast.getLastD default] }] } := by
  have h1 : s.deck ≠ [] := by
    intro hnil
    rw [hnil] at hd
    simp at hd
  have h2 : s.deck.dropLast ≠ [] := by
    intro hnil
    have hlen := List.length_dropLast s.deck
    rw [hnil] at hlen
    simp at hlen
    omega
  unfold dealRound
  rw [hp]
  rw [show (List.range ([p0, p1] : List Player).length) = [0, 1] from rfl]
  rw [show ([0, 1] : List Nat).foldl dealOne s = dealOne (dealOne s 0) 1 from rfl]
  have e1 : dealOne s 0 = { s with
      deck := s.deck.dropLast,
      players := [{ p0 with hand := p0.hand ++ [s.deck.getLastD default] }, p1] } := by
    rw [dealOne_two s p0 p1 hp h1 0 p0 rfl]
    rfl
  rw [e1]
  have e2 := dealOne_two ({ s with
      deck := s.deck.dropLast,
      players := [{ p0 with hand := p0.hand ++ [s.deck.getLastD default] }, p1] })
    ({ p0 with hand := p0.hand ++ [s.deck.getLastD default] }) p1 rfl h2 1 p1 rfl
  rw [e2]
  rfl

theorem dealRounds_two (k : Nat) :
    ∀ (s : GameState) (p0 p1 : Player), s.players = [p0, p1] → 2 * k ≤ s.deck.length →
    ∃ (g0 g1 : List Card),
      g0.length = k ∧ g1.length = k ∧
      ((List.range k).foldl (fun acc _ => dealRound acc) s).players =
        [{ p0 with hand := p0.hand ++ g0 }, { p1 with hand := p1.hand ++ g1 }] ∧
      ((List.range k).foldl (fun acc _ => dealRound acc) s).deck.length =
        s.deck.length - 2 * k ∧
      ((List.range k).foldl (fun acc _ => dealRound acc) s).discard = s.discard ∧
      ((List.range k).foldl (fun acc _ => dealRound acc) s).status = s.status ∧
      ((List.range k).foldl (fun acc _ => dealRound acc) s).turnIndex = s.turnIndex ∧
      ((List.range k).foldl (fun acc _ => dealRound acc) s).direction = s.direction ∧
      ((List.range k).foldl (fun acc _ => dealRound acc) s).winnerSeat = s.winnerSeat ∧
      ((List.range k).foldl (fun acc _ => dealRound acc) s).rand = s.rand := by
  induction k with
  | zero =>
    intro s p0 p1 hp _
    refine ⟨[], [], rfl, rfl, ?_, by simp, rfl, rfl, rfl, rfl, rfl, rfl⟩
    simp only [List.range_zero, List.foldl_nil, List.append_nil]
    rw [hp]
  | succ m ih =>
    intro s p0 p1 hp hd
    obtain ⟨g0, g1, hl0, hl1, hP, hD, hDis, hSt, hTi, hDir, hWin, hRand⟩ :=
      ih s p0 p1 hp (by omega)
    have hd2 : 2 ≤ ((List.range m).foldl (fun acc _ => dealRound acc) s).deck.length := by
      omega
    have hstep := dealRound_two ((List.range m).foldl (fun acc _ => dealRound acc) s)
      ({ p0 with hand := p0.hand ++ g0 }) ({ p1 with hand := p1.hand ++ g1 }) hP hd2
    rw [foldl_range_succ]
    rw [hstep]
    refine ⟨g0 ++ [((List.range m).foldl (fun acc _ => dealRound acc) s).deck.getLastD default],
      g1 ++ [((List.range m).foldl (fun acc _ => dealRound acc) s).deck.dropLast.getLastD default],
      by simp [hl0], by simp [hl1], ?_, ?_, ?_, ?_, ?_, ?_, ?_, ?_⟩
    · dsimp only
      rw [List.append_assoc, List.append_assoc]
    · dsimp only
      simp only [List.length_dropLast]
      omega
    · exact hDis
    · exact hSt
    · exact hTi
    · exact hDir
    · exact hWin
    · exact hRand

/-- C7 (amended): for every entropy stream, creating a 2-player match deals
exactly 7 cards to each player, flips exactly one starting discard card and
sets the initial activeSuit to that card suit, with 37 cards left in the
deck and 52 cards in total.  No power-card retry is performed on the
starting card (see the counterexample: the flipped card can be a Queen). -/
theorem startNewGame_deals_two (id0 id1 n0 n1 : String) (rand : List Nat) :
    (startNewGame [id0, id1] [n0, n1] rand).players.map (fun p => p.hand.length) = [7, 7] ∧
    (startNewGame [id0, id1] [n0, n1] rand).deck.length = 37 ∧
    (startNewGame [id0, id1] [n0, n1] rand).discard.length = 1 ∧
    (startNewGame [id0, id1] [n0, n1] rand).activeSuit =
      some (((startNewGame [id0, id1] [n0, n1] rand).discard.headD default).suit) ∧
    (startNewGame [id0, id1] [n0, n1] rand).turnIndex = 0 ∧
    (startNewGame [id0, id1] [n0, n1] rand).status = .playing ∧
    (startNewGame [id0, id1] [n0, n1] rand).winnerSeat = none ∧
    totalCards (startNewGame [id0, id1] [n0, n1] rand) = 52 := by
  have hp : (initialState [id0, id1] [n0, n1] rand).players =
      [{ seat := 0, id := id0, name := n0, hand := [], lastDeclared := false },
       { seat := 1, id := id1, name := n1, hand := [], lastDeclared := false }] := rfl
  have hdlen : (initialState [id0, id1] [n0, n1] rand).deck.length = 52 := by
    unfold initialState
    dsimp only
    rw [shuffle_length, createDeck_length]
  obtain ⟨g0, g1, hl0, hl1, hP, hD, hDis, hSt, hTi, hDir, hWin, hRand⟩ :=
    dealRounds_two 7 (initialState [id0, id1] [n0, n1] rand) _ _ hp (by omega)
  have hP2 : (dealAll (initialState [id0, id1] [n0, n1] rand)).players =
      [{ seat := 0, id := id0, name := n0, hand := [] ++ g0, lastDeclared := false },
       { seat := 1, id := id1, name := n1, hand := [] ++ g1, lastDeclared := false }] := hP
  have hD2 : (dealAll (initialState [id0, id1] [n0, n1] rand)).deck.length = 38 := by
    have : (dealAll (initialState [id0, id1] [n0, n1] rand)).deck.length =
        (initialState [id0, id1] [n0, n1] rand).deck.length - 2 * 7 := hD
    omega
  have hDis2 : (dealAll (initialState [id0, id1] [n0, n1] rand)).discard = [] := hDis
  have hSt2 : (dealAll (initialState [id0, id1] [n0, n1] rand)).status = .playing := hSt
  have hTi2 : (dealAll (initialState [id0, id1] [n0, n1] rand)).turnIndex = 0 := hTi
  have hWin2 : (dealAll (initialState [id0, id1] [n0, n1] rand)).winnerSeat = none := hWin
  have hne : (dealAll (initialState [id0, id1] [n0, n1] rand)).deck ≠ [] := by
    intro hnil
    rw [hnil] at hD2
    simp at hD2
  have hfin : startNewGame [id0, id1] [n0, n1] rand = { dealAll (initialState [id0, id1] [n0, n1] rand) with
      deck := (dealAll (initialState [id0, id1] [n0, n1] rand)).deck.dropLast,
      discard := (dealAll (initialState [id0, id1] [n0, n1] rand)).discard ++ [(dealAll (initialState [id0, id1] [n0, n1] rand)).deck.getLastD default],
      activeSuit := some ((dealAll (initialState [id0, id1] [n0, n1] rand)).deck.getLastD default).suit } := by
    unfold startNewGame
    simp only []
    rw [drawN_one _ hne]
    dsimp only
    rw [List.headD_cons]
  rw [hfin]
  dsimp only
  rw [hP2, hDis2, hSt2, hTi2, hWin2]
  refine ⟨?_, ?_, ?_, ?_, rfl, rfl, rfl, ?_⟩
  · simp [hl0, hl1]
  · simp only [List.length_dropLast]
    omega
  · simp
  · simp
  · unfold totalCards
    dsimp only
    simp only [List.map_cons, List.map_nil, List.nil_append, List.length_dropLast,
      List.sum_cons, List.sum_nil, List.length_cons, List.length_nil]
    omega

/-- C9 (amended): createDeck produces all 52 rank-suit combinations exactly
once, and the server.js shuffle is a Fisher-Yates permutation pass (every
shuffled deck is a rearrangement of the 52 cards, each exactly once); but a
card value is exactly its rank and suit - the embedding carries no identity
token because src/server.js line 70 creates bare rank/suit objects - so the
fresh-deck recovery path can mint indistinguishable duplicates (see the
counterexample). -/
theorem createDeck_complete :
    createDeck.length = 52 ∧ createDeck.Nodup ∧
    (∀ (r : Rank) (su : Suit), (⟨r, su⟩ : Card) ∈ createDeck) ∧
    ∀ rand : List Nat, List.Perm (shuffle createDeck rand).1 createDeck :=
  ⟨by decide, by decide, by decide, fun rand => shuffle_perm createDeck rand⟩

/-- C10: the per-recipient view built for broadcast contains the complete
ordered contents of the undrawn deck: publicStateFor copies the state,
empties only the other players hand arrays (adding their counts), keeps the
viewer own hand, and keeps the deck field itself in the payload next to the
added deckCount, so any client receiving the view can read every future
draw in order. -/
theorem view_leaks_deck (s : GameState) (viewerId : String) :
    (publicStateFor s viewerId).deck = s.deck ∧
    (publicStateFor s viewerId).deckCount = s.deck.length ∧
    (publicStateFor s viewerId).players.length = s.players.length ∧
    ∀ i : Nat, i < s.players.length →
      ((publicStateFor s viewerId).players.getD i default).id =
        (s.players.getD i default).id ∧
      ((s.players.getD i default).id ≠ viewerId →
        ((publicStateFor s viewerId).players.getD i default).hand = [] ∧
        ((publicStateFor s viewerId).players.getD i default).handCount =
          some (s.players.getD i default).hand.length) ∧
      ((s.players.getD i default).id = viewerId →
        ((publicStateFor s viewerId).players.getD i default).hand =
          (s.players.getD i default).hand ∧
        ((publicStateFor s viewerId).players.getD i default).handCount = none) := by
  refine ⟨rfl, rfl, by simp [publicStateFor], ?_⟩
  intro i hi
  have hget : (publicStateFor s viewerId).players.getD i default =
      maskPlayer viewerId (s.players.getD i default) := by
    unfold publicStateFor
    dsimp only
    rw [List.getD_eq_getElem?_getD, List.getD_eq_getElem?_getD, List.getElem?_map]
    rw [List.getElem?_eq_getElem hi]
    rfl
  rw [hget]
  unfold maskPlayer
  by_cases h : (s.players.getD i default).id = viewerId
  · rw [if_neg (fun hc => hc h)]
    exact ⟨rfl, fun hc => absurd h hc, fun _ => ⟨rfl, rfl⟩⟩
  · rw [if_pos h]
    exact ⟨rfl, fun _ => ⟨rfl, rfl⟩, fun hc => absurd hc h⟩

/-! ### Concrete states and traces for the counterexamples and witnesses -/

/-- Entropy stream realising the identity permutation (each Fisher-Yates
step swaps a position with itself). -/
def identRand : List Nat := (List.range 51).map (fun k => 51 - k)

def twoPlayerStart : GameState := startNewGame ["P0", "P1"] ["Alice", "Bob"] identRand

/-- 38 successive draw intents, alternating between the two seats. -/
def drainTrace : List (Nat × Action) := (List.range 38).map (fun k => (k % 2, Action.draw))

def drainedState : GameState := runActions twoPlayerStart drainTrace

/-- Entropy stream whose shuffle deals P0 the hearts 2-8 (the 2 at index 4)
and P1 the spades J,10,9,8,7,6,5, flips the 2 of diamonds as starting card
and stacks the subsequent draws so that P1 collects the full spade run
2..J; computed by inverting the Fisher-Yates loop. -/
def comboRand : List Nat :=
  [15, 10, 16, 9, 17, 8, 18, 7, 14, 6, 19, 5, 20, 4, 27, 21, 3, 22, 2, 28, 1, 29, 29,
   15, 10, 16, 9, 17, 8, 18, 7, 14, 6, 6, 5, 14, 4, 10, 7, 3, 6, 2, 4, 1, 2, 4, 5, 1, 2, 2, 1]

def comboStart : GameState := startNewGame ["P0", "P1"] ["Alice", "Bob"] comboRand

/-- Eight single draws, then P0 plays a lone 2 (setting pendingDraw2 = 2),
then P1 answers the pending-2 gate with the same-suit run 2..J of spades
whose terminal black Jack adds pendingDrawJ = 5 while pendingDraw2 stays. -/
def comboTrace : List (Nat × Action) :=
  [(0, .draw), (1, .draw), (0, .draw), (1, .draw), (0, .draw), (1, .draw), (0, .draw),
   (1, .draw), (0, .play [4]), (1, .play [0, 1, 2, 3, 4, 5, 6, 7, 8, 9])]

/-- A player one card from finishing without having declared LAST. -/
def dirtyState : GameState :=
  { status := .playing,
    deck := [⟨.r2, .C⟩, ⟨.r3, .C⟩],
    discard := [⟨.r5, .S⟩],
    players := [{ seat := 0, id := "P0", name := "Alice", hand := [⟨.r5, .H⟩], lastDeclared := false },
                { seat := 1, id := "P1", name := "Bob", hand := [⟨.r9, .D⟩], lastDeclared := false }],
    turnIndex := 0, direction := 1, activeSuit := some .S,
    pendingDraw2 := 0, pendingDrawJ := 0, pendingSkip := 0,
    extraTurn := false, winnerSeat := none, rand := [] }

/-- A player who declared LAST and holds a single King. -/
def kingFinishState : GameState :=
  { status := .playing,
    deck := [⟨.r4, .H⟩, ⟨.r6, .H⟩],
    discard := [⟨.r5, .S⟩],
    players := [{ seat := 0, id := "P0", name := "Alice", hand := [⟨.K, .S⟩], lastDeclared := true },
                { seat := 1, id := "P1", name := "Bob", hand := [⟨.r9, .D⟩], lastDeclared := false }],
    turnIndex := 0, direction := 1, activeSuit := some .S,
    pendingDraw2 := 0, pendingDrawJ := 0, pendingSkip := 0,
    extraTurn := false, winnerSeat := none, rand := [] }

/-- A player about to play an Ace with two hearts-or-diamonds left behind. -/
def aceState : GameState :=
  { status := .playing,
    deck := [⟨.r4, .C⟩],
    discard := [⟨.r5, .C⟩],
    players := [{ seat := 0, id := "P0", name := "Alice",
                  hand := [⟨.A, .S⟩, ⟨.r7, .H⟩, ⟨.r7, .D⟩], lastDeclared := false },
                { seat := 1, id := "P1", name := "Bob", hand := [⟨.r9, .D⟩], lastDeclared := false }],
    turnIndex := 0, direction := 1, activeSuit := some .C,
    pendingDraw2 := 0, pendingDrawJ := 0, pendingSkip := 0,
    extraTurn := false, winnerSeat := none, rand := [] }

/-- A state with a two-unit skip stack pending (two 8s were stacked). -/
def skipState : GameState :=
  { status := .playing,
    deck := [⟨.r4, .C⟩],
    discard := [⟨.r8, .S⟩],
    players := [{ seat := 0, id := "P0", name := "Alice", hand := [⟨.r7, .H⟩], lastDeclared := false },
                { seat := 1, id := "P1", name := "Bob", hand := [⟨.r9, .D⟩], lastDeclared := false }],
    turnIndex := 0, direction := 1, activeSuit := some .S,
    pendingDraw2 := 0, pendingDrawJ := 0, pendingSkip := 2,
    extraTurn := false, winnerSeat := none, rand := [] }

/-! ### Counterexamples -/

set_option maxRecDepth 100000 in
/-- C2 counterexample: from a freshly created 2-player match, 38 accepted
draw actions exhaust the deck while the discard pile holds a single card,
so the recovery path mints a fresh 52-card deck; the reachable state then
holds 104 cards and the conservation invariant totalCards = 52 fails. -/
theorem conservation_violated :
    allAccepted twoPlayerStart drainTrace = true ∧
    totalCards drainedState = 104 ∧ totalCards drainedState ≠ 52 := by
  exact ⟨by decide, by decide, by decide⟩

/-- C3 counterexample: a player with lastDeclared = true who empties the
hand on a single King is penalised, but the extra-turn grant the King just
created is NOT cancelled - extraTurn is still true after the rejected
finish, contradicting the claim that any pending extra-turn grant is
cancelled. -/
theorem power_finish_keeps_extraTurn :
    (applyAction kingFinishState 0 (.play [0])).1 = .ok ∧
    kingFinishState.extraTurn = false ∧
    (applyAction kingFinishState 0 (.play [0])).2.extraTurn = true ∧
    ((applyAction kingFinishState 0 (.play [0])).2.players.getD 0 default).hand.length = 1 := by
  exact ⟨by decide, by decide, by decide, by decide⟩

/-- C4 counterexample: an accepted play whose terminal card is an Ace with
no suit choice supplied advances the turn immediately (turnIndex goes from
0 to 1) and auto-picks the active suit (hearts, the most frequent suit of
the remaining hand); no awaiting-suit-choice state is entered, contradicting
the claim that the turn never advances while a suit choice is pending. -/
theorem ace_play_advances_turn :
    (applyAction aceState 0 (.play [0])).1 = .ok ∧
    aceState.turnIndex = 0 ∧
    (applyAction aceState 0 (.play [0])).2.turnIndex = 1 ∧
    (applyAction aceState 0 (.play [0])).2.activeSuit = some Suit.H := by
  exact ⟨by decide, by decide, by decide, by decide⟩

/-- C5 counterexample: a reachable state (every intent in the trace is
accepted from a freshly created match) in which BOTH pendingDraw2 = 2 and
pendingDrawJ = 5 hold: P1 answers a pending draw-2 gate with the same-suit
run 2..J of spades, whose terminal black Jack adds 5 to pendingDrawJ while
pendingDraw2 is left untouched. -/
theorem both_pendings_nonzero :
    allAccepted comboStart comboTrace = true ∧
    (runActions comboStart comboTrace).pendingDraw2 = 2 ∧
    (runActions comboStart comboTrace).pendingDrawJ = 5 := by
  exact ⟨by decide, by decide, by decide⟩

/-- C7 counterexample: with the identity entropy stream the starting
discard card of a freshly created match is the Queen of diamonds - a power
card - because startNewGame never retries the flipped card. -/
theorem start_top_can_be_power :
    twoPlayerStart.discard = [⟨.Q, .D⟩] ∧
    isPower ((twoPlayerStart.discard.headD default).rank) = true := by
  exact ⟨by decide, by decide⟩

/-- C8 counterexample: a draw by the active player while pendingSkip = 2
clears the whole stack to 0 instead of decrementing it by exactly 1. -/
theorem skip_draw_clears_stack :
    (applyAction skipState 0 .draw).1 = .ok ∧
    skipState.pendingSkip = 2 ∧
    (applyAction skipState 0 .draw).2.pendingSkip = 0 ∧
    (applyAction skipState 0 .draw).2.pendingSkip ≠ skipState.pendingSkip - 1 := by
  exact ⟨by decide, by decide, by decide, by decide⟩

set_option maxRecDepth 100000 in
/-- C9 counterexample: in the reachable drained state the card value Queen
of diamonds exists twice across the zones (the old discard top and a copy
inside the freshly minted deck): cards carry no fresh unique identity
token, so two physical cards are indistinguishable. -/
theorem minted_duplicate_card :
    allAccepted twoPlayerStart drainTrace = true ∧
    countCard drainedState ⟨.Q, .D⟩ = 2 := by
  exact ⟨by decide, by decide⟩

/-! ### Witnesses -/

/-- C1 witness: the dirty-finish theorem applied at a concrete state where
P0 plays a lone 5 of hearts without having declared LAST. -/
theorem dirty_finish_penalized_applied :
    (applyAction dirtyState 0 (.play [0])).1 = .ok ∧
    (dirtyState.players.getD 0 default).lastDeclared = false ∧
    removeIdxs (dirtyState.players.getD 0 default).hand (uniqIndices [0]) = [] ∧
    (((applyAction dirtyState 0 (.play [0])).2.players.getD 0 default).hand.length = 2 ∧
     ((applyAction dirtyState 0 (.play [0])).2.players.getD 0 default).lastDeclared = false ∧
     (applyAction dirtyState 0 (.play [0])).2.status = .playing ∧
     (applyAction dirtyState 0 (.play [0])).2.winnerSeat = dirtyState.winnerSeat ∧
     (applyAction dirtyState 0 (.play [0])).2.turnIndex =
       ((((0 : Nat) : Int) + (applyAction dirtyState 0 (.play [0])).2.direction +
         (dirtyState.players.length : Int)) % (dirtyState.players.length : Int)).toNat) :=
  ⟨by decide, by decide, by decide,
    dirty_finish_penalized dirtyState 0 [0] (by decide) (by decide) (by decide)⟩

/-- C2 witness: the mod-52 conservation theorem applied to the concrete
dirty-finish play. -/
theorem operation_conserves_mod52_applied :
    0 < dirtyState.players.length ∧
    totalCards (applyAction dirtyState 0 (.play [0])).2 % 52 = totalCards dirtyState % 52 :=
  ⟨by decide, operation_conserves_mod52 dirtyState 0 (.play [0]) (by decide)⟩

/-- C3 witness: the power-finish theorem applied at the concrete King
finish. -/
theorem power_finish_penalized_applied :
    (applyAction kingFinishState 0 (.play [0])).1 = .ok ∧
    (kingFinishState.players.getD 0 default).lastDeclared = true ∧
    removeIdxs (kingFinishState.players.getD 0 default).hand (uniqIndices [0]) = [] ∧
    isPower ((playedCards kingFinishState 0 [0]).getLastD default).rank = true ∧
    (((applyAction kingFinishState 0 (.play [0])).2.players.getD 0 default).hand.length = 1 ∧
     ((applyAction kingFinishState 0 (.play [0])).2.players.getD 0 default).lastDeclared = false ∧
     (applyAction kingFinishState 0 (.play [0])).2.status = .playing ∧
     (applyAction kingFinishState 0 (.play [0])).2.winnerSeat = kingFinishState.winnerSeat ∧
     (applyAction kingFinishState 0 (.play [0])).2.turnIndex =
       ((((0 : Nat) : Int) + (applyAction kingFinishState 0 (.play [0])).2.direction +
         (kingFinishState.players.length : Int)) % (kingFinishState.players.length : Int)).toNat) :=
  ⟨by decide, by decide, by decide, by decide,
    power_finish_penalized kingFinishState 0 [0] (by decide) (by decide) (by decide) (by decide)⟩

/-- C4 witness: the Ace auto-pick theorem applied at the concrete Ace play
(the remaining hand holds one heart and one diamond, so the bot-like choice
is hearts). -/
theorem ace_autopick_suit_applied :
    (applyAction aceState 0 (.play [0])).1 = .ok ∧
    ((playedCards aceState 0 [0]).getLastD default).rank = .A ∧
    removeIdxs (aceState.players.getD 0 default).hand (uniqIndices [0]) ≠ [] ∧
    aceState.extraTurn = false ∧
    ((applyAction aceState 0 (.play [0])).2.activeSuit =
      some (bestSuitOf (removeIdxs (aceState.players.getD 0 default).hand (uniqIndices [0]))) ∧
     (applyAction aceState 0 (.play [0])).2.direction = aceState.direction ∧
     (applyAction aceState 0 (.play [0])).2.turnIndex =
       ((((0 : Nat) : Int) + aceState.direction +
         (aceState.players.length : Int)) % (aceState.players.length : Int)).toNat) :=
  ⟨by decide, by decide, by decide, by decide,
    ace_autopick_suit aceState 0 [0] (by decide) (by decide) (by decide) (by decide)⟩

/-- C6 witness: a rejected out-of-turn draw leaves the concrete state
unchanged. -/
theorem rejection_unchanged_applied :
    (applyAction dirtyState 1 .draw).1 = .err "Not your turn" ∧
    (applyAction dirtyState 1 .draw).2 = dirtyState :=
  ⟨by decide,
    rejection_leaves_state_unchanged dirtyState 1 .draw "Not your turn" (by decide)⟩

/-- C8 witness: the skip-clearing theorem applied at the concrete
two-unit-skip state. -/
theorem skip_draw_zeroes_applied :
    (applyAction skipState 0 .draw).1 = .ok ∧
    skipState.pendingDraw2 = 0 ∧ skipState.pendingDrawJ = 0 ∧ skipState.pendingSkip > 0 ∧
    ((applyAction skipState 0 .draw).2.pendingSkip = 0 ∧
     (applyAction skipState 0 .draw).2.players = skipState.players ∧
     (applyAction skipState 0 .draw).2.deck = skipState.deck ∧
     (applyAction skipState 0 .draw).2.discard = skipState.discard ∧
     (applyAction skipState 0 .draw).2.turnIndex =
       ((((0 : Nat) : Int) + skipState.direction +
         (skipState.players.length : Int)) % (skipState.players.length : Int)).toNat) :=
  ⟨by decide, by decide, by decide, by decide,
    skip_draw_zeroes skipState 0 (by decide) (by decide) (by decide) (by decide)⟩

/-- C10 witness: the view built for P0 in the concrete state still carries
the full deck, while the opponent hand is reduced to a count. -/
theorem view_leaks_deck_applied :
    (publicStateFor dirtyState "P0").deck = dirtyState.deck ∧
    (publicStateFor dirtyState "P0").deckCount = dirtyState.deck.length ∧
    1 < dirtyState.players.length ∧
    ((publicStateFor dirtyState "P0").players.getD 1 default).hand = [] ∧
    ((publicStateFor dirtyState "P0").players.getD 1 default).handCount =
      some (dirtyState.players.getD 1 default).hand.length := by
  have h := view_leaks_deck dirtyState "P0"
  refine ⟨h.1, h.2.1, by decide, ?_, ?_⟩
  · exact ((h.2.2.2 1 (by decide)).2.1 (by decide)).1
  · exact ((h.2.2.2 1 (by decide)).2.1 (by decide)).2

end CardGame
